import Mathlib

/-!
Verification development for the alogger ingest pipeline.

This file gives a shallow embedding of the core of the repository:
the SQLite-backed job store (`src/alogger_ingester/db.py`), the media
pipeline (`src/alogger_ingester/pipeline.py`), the worker service
(`src/alogger_ingester/service.py`) and the TUI worker runtime
(`src/alog/tui.py`), together with theorems about the embedded
definitions.

Modelling conventions:
* SQL rows become Lean structures; tables become lists of rows kept in
  insertion (rowid) order.
* ISO-8601 `created_at` / `started_at` timestamps become natural
  numbers; lexicographic comparison of equal-format ISO strings agrees
  with chronological order, which is all the source relies on.
* The claim query `SELECT ... WHERE status = queued ORDER BY priority
  DESC, created_at ASC LIMIT 1` is modelled relationally: SQL gives no
  guarantee about the relative order of rows whose sort keys are equal,
  so the selected row is any queued row that is minimal for the
  (priority descending, created_at ascending) preorder.
* External processes (ffprobe, ffmpeg, yt-dlp, whisper) are opaque: an
  environment record supplies their exit codes, captured output and the
  probe results of files, exactly at the call sites the source has.
* Python floats holding transcript timestamps are modelled as rationals;
  `int(x)` is truncation toward zero.
-/

namespace Alogger

/-! String primitives.  Python's `str` methods are embedded as
structurally recursive functions over the character list so that every
definition evaluates by kernel reduction; they agree with the library
`String` operations on the ASCII data this program handles. -/

/-- Test whether the first character list starts with the second. -/
def charsStartWith : List Char → List Char → Bool
  | _, [] => true
  | [], _ :: _ => false
  | c :: cs, d :: ds => c = d && charsStartWith cs ds

/-- Test whether the second character list occurs inside the first. -/
def charsContain : List Char → List Char → Bool
  | [], ns => ns.isEmpty
  | h :: t, ns => charsStartWith (h :: t) ns || charsContain t ns

/-- Substring containment, the semantics of the SQL pattern
`LIKE %needle%` for a needle without wildcard characters. -/
def containsSub (haystack needle : String) : Bool :=
  charsContain haystack.data needle.data

/-- Embedding of Python `str.startswith` / `Path.glob` name matching. -/
def strStartsWith (s pre : String) : Bool :=
  charsStartWith s.data pre.data

/-- Embedding of Python `str.endswith`. -/
def strEndsWith (s suf : String) : Bool :=
  charsStartWith s.data.reverse suf.data.reverse

/-- Embedding of Python `str.strip()`: drop whitespace from both ends. -/
def pyStrip (s : String) : String :=
  String.mk
    (((s.data.dropWhile Char.isWhitespace).reverse.dropWhile
        Char.isWhitespace).reverse)

/-- Embedding of Python `str.lower()` / SQL `LOWER` (ASCII). -/
def pyLower (s : String) : String :=
  String.mk (s.data.map Char.toLower)

/-- Strict lexicographic comparison of character lists by code point,
the order in which `sorted` ranks the path strings. -/
def charListLt : List Char → List Char → Bool
  | [], [] => false
  | [], _ :: _ => true
  | _ :: _, [] => false
  | a :: as0, b :: bs0 =>
    if a.toNat < b.toNat then true
    else if b.toNat < a.toNat then false
    else charListLt as0 bs0

/-- Status column of `ingest_jobs`; the CHECK constraint in
`db.py:init_schema` admits exactly these five values. -/
inductive Status where
  | queued
  | downloading
  | transcribing
  | done
  | failed
deriving DecidableEq, Repr

/-- Row of the `ingest_jobs` table (schema in `db.py:init_schema`). -/
structure JobRow where
  id : Nat
  url : String
  status : Status
  priority : Int
  retries : Nat := 0
  errorText : Option String := none
  videoId : Option String := none
  localVideoPath : Option String := none
  transcriptJsonPath : Option String := none
  createdAt : Nat
  startedAt : Option Nat := none
  finishedAt : Option Nat := none
deriving DecidableEq, Repr

/-- Metadata dictionary returned by `yt-dlp --dump-single-json`, with the
fields `db.py:upsert_video` reads. -/
structure Metadata where
  idField : Option String := none
  title : Option String := none
  channel : Option String := none
  uploader : Option String := none
  uploaderId : Option String := none
  duration : Option Int := none
  uploadDate : Option String := none
  webpageUrl : Option String := none
  thumbnail : Option String := none
  viewCount : Option Int := none
  likeCount : Option Int := none
  rawJson : String := ""
deriving DecidableEq, Repr

/-- Row of the `videos` table. -/
structure VideoRow where
  videoId : String
  sourceUrl : String
  title : Option String := none
  channel : Option String := none
  uploaderId : Option String := none
  durationSec : Option Int := none
  uploadDate : Option String := none
  webpageUrl : Option String := none
  thumbnail : Option String := none
  viewCount : Option Int := none
  likeCount : Option Int := none
  metadataJson : String := ""
  createdAt : Nat := 0
  updatedAt : Nat := 0
deriving DecidableEq, Repr

/-- Row of the `transcript_segments` table. -/
structure SegRow where
  videoId : String
  segmentIndex : Nat
  startMs : Int
  endMs : Int
  text : String
deriving DecidableEq, Repr

/-- Whole persisted store: the three tables of `db.py:init_schema` plus
the AUTOINCREMENT counter for `ingest_jobs.id`. -/
structure DBState where
  jobs : List JobRow := []
  videos : List VideoRow := []
  segments : List SegRow := []
  nextJobId : Nat := 1
deriving DecidableEq, Repr

/-- Job dataclass returned by `reserve_next_job` / `reserve_job_by_id`
(`db.py:Job`). -/
structure JobClaim where
  id : Nat
  url : String
  status : Status
  priority : Int
deriving DecidableEq, Repr

/-- Embedding of `DB.enqueue`: one row per url, status `queued`, all rows
of one call sharing the single `utc_now_iso()` timestamp taken before the
loop; returns the assigned rowids. -/
def enqueue (db : DBState) (urls : List String) (priority : Int) (now : Nat) :
    DBState × List Nat :=
  let rows := urls.enum.map (fun p =>
    ({ id := db.nextJobId + p.1, url := p.2, status := Status.queued,
       priority := priority, createdAt := now } : JobRow))
  (⟨db.jobs ++ rows, db.videos, db.segments, db.nextJobId + urls.length⟩,
    rows.map (fun r => r.id))

/-- Sort key of the claim query: row `a` comes strictly before row `b`
when `a.priority > b.priority`, or the priorities tie and
`a.created_at < b.created_at`.  Rows tying on both keys are unordered
(SQL guarantees nothing about their relative order). -/
def keyBefore (a b : JobRow) : Prop :=
  b.priority < a.priority ∨ (a.priority = b.priority ∧ a.createdAt < b.createdAt)

instance (a b : JobRow) : Decidable (keyBefore a b) := by
  unfold keyBefore; infer_instance

/-- Per-row effect of the claim UPDATE (`WHERE id=? AND
status=queued`). -/
def claimFlip (i : Nat) (now : Nat) (r : JobRow) : JobRow :=
  if r.id = i ∧ r.status = Status.queued then
    { r with status := Status.downloading, startedAt := some now,
             errorText := none }
  else r

/-- Effect of the UPDATE inside `reserve_next_job`: the row with the
claimed id, if still queued, flips to `downloading` with `started_at`
set and `error_text` cleared. -/
def markClaimed (db : DBState) (i : Nat) (now : Nat) : DBState :=
  { db with jobs := db.jobs.map (claimFlip i now) }

/-- Relational embedding of `DB.reserve_next_job`.  The transaction is
`BEGIN IMMEDIATE`, so a whole claim is one atomic step.  The selected
row is any queued row minimal for the (priority DESC, created_at ASC)
preorder; `none` is returned exactly when no queued row exists. -/
inductive ReserveStep (now : Nat) : DBState → Option JobClaim → DBState → Prop where
  | empty (db : DBState) (h : ∀ r ∈ db.jobs, r.status ≠ Status.queued) :
      ReserveStep now db none db
  | claim (db : DBState) (r : JobRow) (hmem : r ∈ db.jobs)
      (hq : r.status = Status.queued)
      (hmin : ∀ q ∈ db.jobs, q.status = Status.queued → ¬ keyBefore q r) :
      ReserveStep now db
        (some ⟨r.id, r.url, Status.downloading, r.priority⟩)
        (markClaimed db r.id now)

/-- Embedding of `DB.update_job_status`: sets the status, COALESCEs each
optional field with the stored value, and stamps `finished_at` on a
transition into `done` or `failed`. -/
def updateJobStatus (db : DBState) (jobId : Nat) (status : Status)
    (errorText videoId localVideoPath transcriptJsonPath : Option String)
    (now : Nat) : DBState :=
  let finishedAt : Option Nat :=
    if status = Status.done ∨ status = Status.failed then some now else none
  { db with jobs := db.jobs.map (fun r =>
      if r.id = jobId then
        { r with status := status,
                 errorText := errorText <|> r.errorText,
                 videoId := videoId <|> r.videoId,
                 localVideoPath := localVideoPath <|> r.localVideoPath,
                 transcriptJsonPath := transcriptJsonPath <|> r.transcriptJsonPath,
                 finishedAt := finishedAt <|> r.finishedAt }
      else r) }

/-- Embedding of `DB.upsert_video` (INSERT ... ON CONFLICT DO UPDATE):
insert-or-overwrite by `video_id`, with `channel` falling back to
`uploader` and `created_at` kept on conflict. -/
def upsertVideo (db : DBState) (videoId sourceUrl : String) (meta : Metadata)
    (now : Nat) : DBState :=
  let fresh : VideoRow :=
    { videoId := videoId, sourceUrl := sourceUrl, title := meta.title,
      channel := meta.channel <|> meta.uploader, uploaderId := meta.uploaderId,
      durationSec := meta.duration, uploadDate := meta.uploadDate,
      webpageUrl := meta.webpageUrl, thumbnail := meta.thumbnail,
      viewCount := meta.viewCount, likeCount := meta.likeCount,
      metadataJson := meta.rawJson, createdAt := now, updatedAt := now }
  if db.videos.any (fun v => v.videoId = videoId) then
    { db with videos := db.videos.map (fun v =>
        if v.videoId = videoId then { fresh with createdAt := v.createdAt } else v) }
  else
    { db with videos := db.videos ++ [fresh] }

/-- Transcript segment as read from the whisper JSON: `start` and `end`
are seconds as floating point, modelled exactly as rationals. -/
structure SegIn where
  startSec : Rat := 0
  endSec : Rat := 0
  text : String := ""
deriving DecidableEq, Repr

/-- Truncation toward zero, the semantics of Python `int(float)`. -/
def truncTowardZero (q : Rat) : Int :=
  if 0 ≤ q then ⌊q⌋ else -⌊-q⌋

/-- Row list built by `DB.replace_transcript_segments`: enumerate the
input (indices are kept from before filtering), drop segments whose
stripped text is empty, convert seconds to milliseconds with
`int(x * 1000)`, and store the stripped text. -/
def segRowsOf (videoId : String) (segments : List SegIn) : List SegRow :=
  segments.enum.filterMap (fun p =>
    if (pyStrip p.2.text = "") then none
    else some { videoId := videoId, segmentIndex := p.1,
                startMs := truncTowardZero (p.2.startSec * 1000),
                endMs := truncTowardZero (p.2.endSec * 1000),
                text := pyStrip p.2.text })

/-- Embedding of `DB.replace_transcript_segments`: transactional
delete-all-then-insert for one video id. -/
def replaceTranscriptSegments (db : DBState) (videoId : String)
    (segments : List SegIn) : DBState :=
  { db with segments :=
      db.segments.filter (fun s => ¬ s.videoId = videoId) ++ segRowsOf videoId segments }

/-- Configuration fields of `IngesterConfig` that the pipeline consults;
directories are path strings. -/
structure IngesterConfig where
  mediaDir : String := "./data/media"
  transcriptDir : String := "./data/transcripts"
  whisperModel : String := "base"
  whisperModelDir : String := "./data/whisper_models"
  whisperLanguage : String := "en"
  whisperBinary : String := "whisper"
  ytDlpBinary : String := "yt-dlp"
  ffmpegBinary : String := "ffmpeg"
deriving DecidableEq, Repr

/-- File on disk as the pipeline sees it: `path` is `str(p)`, `base` is
`p.name`, `size` is `p.stat().st_size` and `isFile` is `p.is_file()`. -/
structure MediaFile where
  path : String
  base : String
  size : Nat
  isFile : Bool := true
deriving DecidableEq, Repr

/-- Stable insertion into a sorted list: the element goes after every
element it is not strictly before, matching stable sorting. -/
def insertStable (lt : α → α → Bool) (a : α) : List α → List α
  | [] => [a]
  | x :: xs => if lt a x then a :: x :: xs else x :: insertStable lt a xs

/-- Stable sort realized by left-to-right insertion. -/
def sortBy (lt : α → α → Bool) (l : List α) : List α :=
  l.foldl (fun acc a => insertStable lt a acc) []

/-- Membership is preserved by stable insertion. -/
theorem mem_insertStable (lt : α → α → Bool) (a b : α) (l : List α) :
    b ∈ insertStable lt a l ↔ b = a ∨ b ∈ l := by
  induction l with
  | nil => simp [insertStable]
  | cons x xs ih =>
    by_cases h : lt a x = true
    · simp [insertStable, h]
    · simp only [insertStable, h, if_false, Bool.false_eq_true, if_neg,
        List.mem_cons, ih]
      tauto

/-- Membership is preserved by the stable sort. -/
theorem mem_sortBy (lt : α → α → Bool) (b : α) (l : List α) :
    b ∈ sortBy lt l ↔ b ∈ l := by
  suffices h : ∀ acc : List α, b ∈ l.foldl (fun acc a => insertStable lt a acc) acc ↔
      b ∈ acc ∨ b ∈ l by
    simpa [sortBy] using h []
  induction l with
  | nil => simp
  | cons x xs ih =>
    intro acc
    simp only [List.foldl_cons, ih, mem_insertStable, List.mem_cons]
    tauto

/-- Path-string comparison used when the source sorts `Path` objects that
all live in one directory. -/
def pathLt (a b : MediaFile) : Bool := charListLt a.path.data b.path.data

/-- Embedding of `_fallback_paths`: glob `f"{video_id}*"` over the media
directory, keep regular files whose name does not end in `.part`, and
sort.  A falsy `video_id` (`None` or the empty string) yields no
candidates. -/
def fallbackPaths (files : List MediaFile) (videoId : String) : List MediaFile :=
  if videoId = "" then []
  else sortBy pathLt (files.filter (fun m =>
    strStartsWith m.base videoId && m.isFile && !(strEndsWith m.base ".part")))

/-- Embedding of `PurePath.suffix`: the part of the name from the last
dot, empty when the only dot leads the name or ends it. -/
def suffixOfBase (base : String) : String :=
  let cs := base.data
  let dots := (List.range cs.length).filter (fun i => cs.get? i = some ('.' : Char))
  match dots.getLast? with
  | none => ""
  | some i => if 0 < i ∧ i + 1 < cs.length then String.mk (cs.drop i) else ""

/-- Container-format rank of `_select_primary_media`. -/
def extRankMedia (m : MediaFile) : Nat :=
  let s := pyLower (suffixOfBase m.base)
  if s = ".mp4" then 4
  else if s = ".mkv" then 3
  else if s = ".webm" ∨ s = ".mov" ∨ s = ".m4v" then 2
  else if s = ".m4a" ∨ s = ".mp3" ∨ s = ".opus" then 1
  else 0

/-- Container-format rank of `_select_primary_video`. -/
def extRankVideo (m : MediaFile) : Nat :=
  let s := pyLower (suffixOfBase m.base)
  if s = ".mkv" then 5
  else if s = ".mp4" then 4
  else if s = ".webm" then 3
  else if s = ".mov" ∨ s = ".m4v" then 2
  else 0

/-- Strict lexicographic order on (rank, size) keys. -/
def keyGt (a b : Nat × Nat) : Prop := b.1 < a.1 ∨ (a.1 = b.1 ∧ b.2 < a.2)

instance (a b : Nat × Nat) : Decidable (keyGt a b) := by
  unfold keyGt; infer_instance

/-- Single comparison step of the reverse-sorted selection. -/
def pickBetter (key : MediaFile → Nat × Nat) (acc : Option MediaFile)
    (m : MediaFile) : Option MediaFile :=
  match acc with
  | none => some m
  | some b => if keyGt (key m) (key b) then some m else b

/-- First element attaining the maximal key, the value of
`sorted(paths, key=..., reverse=True)[0]` under stable sorting. -/
def selectFirstMax (key : MediaFile → Nat × Nat) (l : List MediaFile) :
    Option MediaFile :=
  l.foldl (pickBetter key) none

/-- Sort key of `_select_primary_media`. -/
def mediaKey (m : MediaFile) : Nat × Nat := (extRankMedia m, m.size)

/-- Sort key of `_select_primary_video`. -/
def videoKey (m : MediaFile) : Nat × Nat := (extRankVideo m, m.size)

/-- Sort key of `_pick_largest`. -/
def sizeKey (m : MediaFile) : Nat × Nat := (0, m.size)

/-- Embedding of `_select_primary_media`; raises on an empty list. -/
def selectPrimaryMedia (paths : List MediaFile) : Except String MediaFile :=
  match selectFirstMax mediaKey paths with
  | some m => Except.ok m
  | none => Except.error "No downloaded media files were found"

/-- Embedding of `_select_primary_video`; raises on an empty list. -/
def selectPrimaryVideo (paths : List MediaFile) : Except String MediaFile :=
  match selectFirstMax videoKey paths with
  | some m => Except.ok m
  | none => Except.error "No video-capable media files were found"

/-- Embedding of `_pick_largest`: largest file by size, `none` on an
empty list. -/
def pickLargest (paths : List MediaFile) : Option MediaFile :=
  selectFirstMax sizeKey paths

/-- Environment supplying the outcomes of all external invocations: the
probe results per path, file-existence tests, and per merge attempt the
ffmpeg exit code, captured output, and the probe/smoke results of the
attempt output.  Attempts are numbered 0-3 in the order of
`merge_streams_for_playback`. -/
structure FsEnv where
  probeAudio : String → Option Bool := fun _ => none
  probeVideo : String → Option Bool := fun _ => none
  fileExists : String → Bool := fun _ => false
  mergeRc : Fin 4 → Int := fun _ => 1
  mergeOutExists : Fin 4 → Bool := fun _ => false
  mergeOutAudio : Fin 4 → Option Bool := fun _ => none
  mergeOutVideo : Fin 4 → Option Bool := fun _ => none
  mergeOutSmoke : Fin 4 → Bool := fun _ => false
  mergeOut : Fin 4 → String := fun _ => ""
  mergeErr : Fin 4 → String := fun _ => ""
  dlRc : Int := 0
  dlOut : String := ""
  dlErr : String := ""

/-- Single-quote character, kept out of string literals. -/
def squote : String := String.singleton (Char.ofNat 39)

/-- Characters `shlex.quote` leaves unquoted (ASCII word characters plus
a fixed punctuation set). -/
def shlexSafeChar (c : Char) : Bool :=
  (c.isAlphanum && c.toNat < 128) || c = '_' || c = '@' || c = '%' || c = '+' ||
    c = '=' || c = ':' || c = ',' || c = '.' || c = '/' || c = '-'

/-- Embedding of `shlex.quote`. -/
def shlexQuote (s : String) : String :=
  if s = "" then squote ++ squote
  else if s.data.all shlexSafeChar then s
  else squote ++ s.replace squote (squote ++ "\"" ++ squote ++ "\"" ++ squote) ++ squote

/-- Python `" ".join`. -/
def joinSpace : List String → String
  | [] => ""
  | [x] => x
  | x :: xs => x ++ " " ++ joinSpace xs

/-- Message of the `PipelineError` that `run_cmd` raises on a nonzero
exit code. -/
def runCmdFailureMsg (rc : Int) (cmd : List String) (out err : String) : String :=
  "Command failed (" ++ toString rc ++ "): " ++ joinSpace (cmd.map shlexQuote) ++
    "\nstdout:\n" ++ out ++ "\nstderr:\n" ++ err

/-- Argument vector of merge attempt 1 (mp4 stream-copy remux). -/
def cmdCopyMp4 (cfg : IngesterConfig) (videoSrc audioSrc outPath : String) :
    List String :=
  [cfg.ffmpegBinary, "-y", "-i", videoSrc, "-i", audioSrc,
   "-map", "0:v:0", "-map", "1:a:0", "-c", "copy", outPath]

/-- Argument vector of merge attempt 2 (copy video, transcode audio). -/
def cmdAacMp4 (cfg : IngesterConfig) (videoSrc audioSrc outPath : String) :
    List String :=
  [cfg.ffmpegBinary, "-y", "-i", videoSrc, "-i", audioSrc,
   "-map", "0:v:0", "-map", "1:a:0", "-c:v", "copy", "-c:a", "aac",
   "-b:a", "160k", outPath]

/-- Argument vector of merge attempt 3 (mkv stream-copy remux). -/
def cmdCopyMkv (cfg : IngesterConfig) (videoSrc audioSrc outPath : String) :
    List String :=
  [cfg.ffmpegBinary, "-y", "-i", videoSrc, "-i", audioSrc,
   "-map", "0:v:0", "-map", "1:a:0", "-c", "copy", outPath]

/-- Argument vector of merge attempt 4 (full compatibility transcode). -/
def cmdCompat (cfg : IngesterConfig) (videoSrc audioSrc outPath : String) :
    List String :=
  [cfg.ffmpegBinary, "-y", "-i", videoSrc, "-i", audioSrc,
   "-map", "0:v:0", "-map", "1:a:0", "-c:v", "libx264", "-pix_fmt", "yuv420p",
   "-profile:v", "high", "-level", "4.1", "-preset", "veryfast", "-crf", "23",
   "-c:a", "aac", "-ac", "2", "-ar", "48000", "-b:a", "160k",
   "-movflags", "+faststart", outPath]

/-- Output path of merge attempts 1-2. -/
def mergedMp4Path (cfg : IngesterConfig) (videoId : String) : String :=
  cfg.mediaDir ++ "/" ++ videoId ++ ".merged.mp4"

/-- Output path of merge attempt 3. -/
def mergedMkvPath (cfg : IngesterConfig) (videoId : String) : String :=
  cfg.mediaDir ++ "/" ++ videoId ++ ".merged.mkv"

/-- Output path of merge attempt 4. -/
def compatMp4Path (cfg : IngesterConfig) (videoId : String) : String :=
  cfg.mediaDir ++ "/" ++ videoId ++ ".playback.mp4"

/-- Validation of a merge attempt launched through `subprocess.run`
(attempts 1 and 2): zero exit code, output exists, both streams probe
positive, and the decode smoke test passes. -/
def mergeAttemptOk (env : FsEnv) (i : Fin 4) : Bool :=
  env.mergeRc i = 0 && env.mergeOutExists i && env.mergeOutAudio i = some true &&
    env.mergeOutVideo i = some true && env.mergeOutSmoke i

/-- Validation applied after a `run_cmd` attempt already returned (so the
exit code is known to be zero): existence, both probes, smoke test. -/
def mergeOutputOk (env : FsEnv) (i : Fin 4) : Bool :=
  env.mergeOutExists i && env.mergeOutAudio i = some true &&
    env.mergeOutVideo i = some true && env.mergeOutSmoke i

/-- Video-containing candidates of the merge cascade. -/
def mergeWithVideo (env : FsEnv) (files : List MediaFile) (videoId : String) :
    List MediaFile :=
  (fallbackPaths files videoId).filter (fun m => env.probeVideo m.path = some true)

/-- Audio-containing candidates of the merge cascade. -/
def mergeWithAudio (env : FsEnv) (files : List MediaFile) (videoId : String) :
    List MediaFile :=
  (fallbackPaths files videoId).filter (fun m => env.probeAudio m.path = some true)

/-- Candidates with both streams, as the merge cascade filters them. -/
def mergeWithAV (env : FsEnv) (files : List MediaFile) (videoId : String) :
    List MediaFile :=
  (mergeWithVideo env files videoId).filter (fun m => env.probeAudio m.path = some true)

/-- Audio-only candidates: audio-positive, not among the video list, and
video-probing negative. -/
def mergeAudioOnly (env : FsEnv) (files : List MediaFile) (videoId : String) :
    List MediaFile :=
  (mergeWithAudio env files videoId).filter (fun m =>
    !((mergeWithVideo env files videoId).contains m) &&
      env.probeVideo m.path = some false)

/-- Video-source / audio-source pair that `merge_streams_for_playback`
feeds to ffmpeg: largest video-containing candidate and largest
audio-only candidate. -/
def mergeSources (env : FsEnv) (files : List MediaFile) (videoId : String) :
    Option (MediaFile × MediaFile) :=
  match pickLargest (mergeWithVideo env files videoId),
      pickLargest (mergeAudioOnly env files videoId) with
  | some vs, some aud => some (vs, aud)
  | _, _ => none

/-- Attempt chain of `merge_streams_for_playback` over the chosen
video/audio sources.  Attempts 1 and 2 go through `subprocess.run`,
whose nonzero exit merely fails validation; attempts 3 and 4 go through
`run_cmd`, which raises `PipelineError` on a nonzero exit, modelled as
`Except.error`. -/
def mergeFromSources (cfg : IngesterConfig) (env : FsEnv) (videoId : String) :
    Option (MediaFile × MediaFile) → Except String (Option String)
  | none => Except.ok none
  | some (vs, aud) =>
    if mergeAttemptOk env 0 then Except.ok (some (mergedMp4Path cfg videoId))
    else if mergeAttemptOk env 1 then Except.ok (some (mergedMp4Path cfg videoId))
    else if env.mergeRc 2 ≠ 0 then
      Except.error (runCmdFailureMsg (env.mergeRc 2)
        (cmdCopyMkv cfg vs.path aud.path (mergedMkvPath cfg videoId))
        (env.mergeOut 2) (env.mergeErr 2))
    else if mergeOutputOk env 2 then Except.ok (some (mergedMkvPath cfg videoId))
    else if env.mergeRc 3 ≠ 0 then
      Except.error (runCmdFailureMsg (env.mergeRc 3)
        (cmdCompat cfg vs.path aud.path (compatMp4Path cfg videoId))
        (env.mergeOut 3) (env.mergeErr 3))
    else if mergeOutputOk env 3 then Except.ok (some (compatMp4Path cfg videoId))
    else Except.ok none

/-- Embedding of `merge_streams_for_playback`: no candidates mean no
merge; an existing audio-and-video candidate is returned directly;
otherwise the attempt chain runs on the selected sources. -/
def mergeStreams (cfg : IngesterConfig) (env : FsEnv) (files : List MediaFile)
    (videoId : String) : Except String (Option String) :=
  if (fallbackPaths files videoId).isEmpty then Except.ok none
  else if !(mergeWithAV env files videoId).isEmpty then
    (selectPrimaryVideo (mergeWithAV env files videoId)).map (fun m => some m.path)
  else mergeFromSources cfg env videoId (mergeSources env files videoId)

/-- First-occurrence deduplication by resolved path;
`Path.resolve()` is the identity in this model (no symlinks). -/
def dedupByPathAux (seen : List String) : List MediaFile → List MediaFile
  | [] => []
  | m :: ms =>
    if seen.contains m.path then dedupByPathAux seen ms
    else m :: dedupByPathAux (m.path :: seen) ms

/-- Deduplication pass of `resolve_playback_media_path`. -/
def dedupByPath (l : List MediaFile) : List MediaFile := dedupByPathAux [] l

/-- Message of the `PipelineError` raised when no video stream exists. -/
def noPlayableMsg (videoId : String) : String :=
  "No playable video stream found for video_id=" ++ videoId ++
    ". Check downloaded media files."

/-- Candidate list of `resolve_playback_media_path`: the existing
preferred path first, then the content-id fallback paths, deduplicated
by resolved path. -/
def playbackUnique (env : FsEnv) (files : List MediaFile) (videoId : String)
    (preferred : Option MediaFile) : List MediaFile :=
  dedupByPath
    ((match preferred with
      | some p => if env.fileExists p.path then [p] else []
      | none => []) ++ fallbackPaths files videoId)

/-- Video-containing candidates of playback resolution. -/
def playbackWithVideo (env : FsEnv) (files : List MediaFile) (videoId : String)
    (preferred : Option MediaFile) : List MediaFile :=
  (playbackUnique env files videoId preferred).filter
    (fun m => env.probeVideo m.path = some true)

/-- Audio-and-video candidates of playback resolution. -/
def playbackWithAV (env : FsEnv) (files : List MediaFile) (videoId : String)
    (preferred : Option MediaFile) : List MediaFile :=
  (playbackWithVideo env files videoId preferred).filter
    (fun m => env.probeAudio m.path = some true)

/-- Tail of `resolve_playback_media_path` once no merged file is usable:
raise when no video-containing candidate remains, otherwise select the
primary video candidate. -/
def resolveVideoOnly (env : FsEnv) (files : List MediaFile) (videoId : String)
    (preferred : Option MediaFile) : Except String String :=
  if (playbackWithVideo env files videoId preferred).isEmpty then
    Except.error (noPlayableMsg videoId)
  else
    (selectPrimaryVideo (playbackWithVideo env files videoId preferred)).map
      (fun m => m.path)

/-- Continuation of `resolve_playback_media_path` on the cascade's
outcome: a raised cascade error propagates; a merged path is returned
when it exists; otherwise the video-only tail runs. -/
def resolveAfterMerge (env : FsEnv) (files : List MediaFile) (videoId : String)
    (preferred : Option MediaFile) :
    Except String (Option String) → Except String String
  | Except.error e => Except.error e
  | Except.ok (some m) =>
    if env.fileExists m then Except.ok m
    else resolveVideoOnly env files videoId preferred
  | Except.ok none => resolveVideoOnly env files videoId preferred

/-- Embedding of `resolve_playback_media_path`: prefer a candidate with
both streams, otherwise attempt the merge cascade, otherwise fall back
to the best video-only candidate, and raise when nothing has video. -/
def resolvePlayback (cfg : IngesterConfig) (env : FsEnv) (files : List MediaFile)
    (videoId : String) (preferred : Option MediaFile) : Except String String :=
  if !(playbackWithAV env files videoId preferred).isEmpty then
    (selectPrimaryVideo (playbackWithAV env files videoId preferred)).map
      (fun m => m.path)
  else
    resolveAfterMerge env files videoId preferred
      (mergeStreams cfg env files videoId)

/-- Audio-containing candidates of `_ensure_audio_ready_media`. -/
def ensureWithAudio (env : FsEnv) (candidates : List MediaFile) : List MediaFile :=
  candidates.filter (fun m => env.probeAudio m.path = some true)

/-- Audio-and-video candidates of `_ensure_audio_ready_media`. -/
def ensureWithAV (env : FsEnv) (candidates : List MediaFile) : List MediaFile :=
  candidates.filter (fun m =>
    env.probeAudio m.path = some true && env.probeVideo m.path = some true)

/-- Embedding of `_ensure_audio_ready_media`: prefer candidates with both
streams, else the largest audio-containing candidate, else the primary
media selection.  It only ever selects among the given candidates. -/
def ensureAudioReadyMedia (env : FsEnv) (candidates : List MediaFile)
    (videoId : String) : Except String String :=
  if candidates.isEmpty then
    Except.error ("Downloaded file not found for " ++ videoId)
  else if !(ensureWithAV env candidates).isEmpty then
    (selectPrimaryMedia (ensureWithAV env candidates)).map (fun m => m.path)
  else if !(ensureWithAudio env candidates).isEmpty then
    match pickLargest (ensureWithAudio env candidates) <|>
        (ensureWithAudio env candidates).head? with
    | some m => Except.ok m.path
    | none => Except.error "list index out of range"
  else (selectPrimaryMedia candidates).map (fun m => m.path)

/-- Argument vector of the yt-dlp download invocation in
`download_video`. -/
def cmdDownload (cfg : IngesterConfig) (url videoId : String) : List String :=
  [cfg.ytDlpBinary, "--no-warnings", "--newline", "--ffmpeg-location",
   cfg.ffmpegBinary, "-S", "res:1080,fps", "-f", "bestvideo*+bestaudio/best",
   "--merge-output-format", "mp4", "-o",
   cfg.mediaDir ++ "/" ++ videoId ++ ".%(ext)s", url]

/-- Direct merge target `<media_dir>/<video_id>.mp4` of `download_video`. -/
def directMp4Path (cfg : IngesterConfig) (videoId : String) : String :=
  cfg.mediaDir ++ "/" ++ videoId ++ ".mp4"

/-- Direct-merge success test of `download_video`: the target mp4 exists
and probes audio-positive. -/
def directMp4Ready (cfg : IngesterConfig) (env : FsEnv) (videoId : String) : Bool :=
  env.fileExists (directMp4Path cfg videoId) &&
    env.probeAudio (directMp4Path cfg videoId) = some true

/-- Embedding of `download_video`: run yt-dlp (raising on nonzero exit),
return the directly merged mp4 when it exists and probes
audio-positive, otherwise fall back to `_ensure_audio_ready_media` over
the candidate files matching the content id. -/
def downloadVideo (cfg : IngesterConfig) (env : FsEnv) (files : List MediaFile)
    (url videoId : String) : Except String String :=
  if env.dlRc ≠ 0 then
    Except.error (runCmdFailureMsg env.dlRc (cmdDownload cfg url videoId)
      env.dlOut env.dlErr)
  else if directMp4Ready cfg env videoId then Except.ok (directMp4Path cfg videoId)
  else ensureAudioReadyMedia env (fallbackPaths files videoId) videoId

/-- Latest successfully completed job for a video id:
`SELECT video_id, MAX(id) ... WHERE status = done AND video_id IS NOT
NULL GROUP BY video_id` joined back on the job row. -/
def latestDoneJob (db : DBState) (vid : String) : Option JobRow :=
  db.jobs.foldl (fun acc r =>
    if r.status = Status.done ∧ r.videoId = some vid then
      match acc with
      | none => some r
      | some b => if b.id < r.id then some r else b
    else acc) none

/-- Result row of `search_transcript_segments`. -/
structure SegHit where
  videoId : String
  startMs : Int
  endMs : Int
  text : String
  title : Option String
  sourceUrl : String
  localVideoPath : Option String
  transcriptJsonPath : Option String
deriving DecidableEq, Repr

/-- Ordering `ORDER BY ts.video_id ASC, ts.start_ms ASC`. -/
def segHitLt (a b : SegHit) : Bool :=
  decide (a.videoId < b.videoId) ||
    (a.videoId = b.videoId && decide (a.startMs < b.startMs))

/-- Embedding of `DB.search_transcript_segments`: a blank query returns
the empty list before any query runs; otherwise segments whose lowered
text contains the stripped, lowered needle are joined with their video
and latest done job, ordered, and limited. -/
def searchTranscriptSegments (db : DBState) (queryText : String) (limit : Nat) :
    List SegHit :=
  let needle := pyLower (pyStrip queryText)
  if needle = "" then []
  else
    let joined := db.segments.filterMap (fun s =>
      match db.videos.find? (fun v => v.videoId = s.videoId) with
      | none => none
      | some v =>
        if containsSub (pyLower s.text) needle then
          let j := latestDoneJob db s.videoId
          some { videoId := s.videoId, startMs := s.startMs, endMs := s.endMs,
                 text := s.text, title := v.title, sourceUrl := v.sourceUrl,
                 localVideoPath := j.bind (fun r => r.localVideoPath),
                 transcriptJsonPath := j.bind (fun r => r.transcriptJsonPath) }
        else none)
    (sortBy segHitLt joined).take limit

/-- Result row of `search_videos_by_transcript`. -/
structure VideoHit where
  videoId : String
  title : String
  matchCount : Nat
  firstStartMs : Int
  localVideoPath : Option String
  transcriptJsonPath : Option String
deriving DecidableEq, Repr

/-- Ordering `ORDER BY match_count DESC, first_start_ms ASC`. -/
def videoHitLt (a b : VideoHit) : Bool :=
  decide (b.matchCount < a.matchCount) ||
    (a.matchCount = b.matchCount && decide (a.firstStartMs < b.firstStartMs))

/-- First-occurrence deduplication of a string list. -/
def dedupStrAux (seen : List String) : List String → List String
  | [] => []
  | s :: ss =>
    if seen.contains s then dedupStrAux seen ss
    else s :: dedupStrAux (s :: seen) ss

/-- Distinct video ids in first-match order. -/
def dedupStr (l : List String) : List String := dedupStrAux [] l

/-- Embedding of `DB.search_videos_by_transcript`: group matching
segments by video, count them, take the earliest start, join the video
title (COALESCEd with the id) and latest done job paths, order, limit.
A blank query returns the empty list before any query runs. -/
def searchVideosByTranscript (db : DBState) (queryText : String) (limit : Nat) :
    List VideoHit :=
  let needle := pyLower (pyStrip queryText)
  if needle = "" then []
  else
    let hits := db.segments.filter (fun s =>
      db.videos.any (fun v => v.videoId = s.videoId) &&
        containsSub (pyLower s.text) needle)
    let groups := (dedupStr (hits.map (fun s => s.videoId))).filterMap
      (fun vid =>
        match db.videos.find? (fun v => v.videoId = vid) with
        | none => none
        | some v =>
          match hits.filter (fun s => s.videoId = vid) with
          | [] => none
          | m :: rest =>
            let j := latestDoneJob db vid
            some { videoId := vid, title := (v.title).getD vid,
                   matchCount := rest.length + 1,
                   firstStartMs := rest.foldl (fun a s => min a s.startMs) m.startMs,
                   localVideoPath := j.bind (fun r => r.localVideoPath),
                   transcriptJsonPath := j.bind (fun r => r.transcriptJsonPath) })
    (sortBy videoHitLt groups).take limit

/-- Outcome of one pipeline stage: a value or the message of the raised
exception. -/
inductive StageResult (α : Type) where
  | success (val : α)
  | failure (msg : String)
deriving DecidableEq, Repr

/-- Environment giving the outcome of each external stage of
`IngesterService._process_job` for one job: metadata fetch, download,
transcription, and parsing of the whisper JSON. -/
structure PipelineEnv where
  fetchMeta : StageResult Metadata := StageResult.failure ""
  download : StageResult String := StageResult.failure ""
  transcribe : StageResult String := StageResult.failure ""
  loadSegments : StageResult (List SegIn) := StageResult.failure ""

/-- Index stage of `_process_job`: persist the parsed segments and mark
the job done, or stop at the parse failure. -/
def processLoadSegs (jobId : Nat) (vid path tpath : String) (db2 : DBState)
    (now : Nat) : StageResult (List SegIn) → DBState × Option String
  | StageResult.failure e => (db2, some e)
  | StageResult.success segs =>
    (updateJobStatus (replaceTranscriptSegments db2 vid segs) jobId Status.done
      none (some vid) (some path) (some tpath) now, none)

/-- Transcribe stage of `_process_job`. -/
def processTranscribe (env : PipelineEnv) (jobId : Nat) (vid path : String)
    (db2 : DBState) (now : Nat) : StageResult String → DBState × Option String
  | StageResult.failure e => (db2, some e)
  | StageResult.success tpath =>
    processLoadSegs jobId vid path tpath db2 now env.loadSegments

/-- Download stage of `_process_job`: on success the job flips to
`transcribing` with the media path recorded. -/
def processDownload (env : PipelineEnv) (jobId : Nat) (vid : String)
    (db1 : DBState) (now : Nat) : StageResult String → DBState × Option String
  | StageResult.failure e => (db1, some e)
  | StageResult.success path =>
    processTranscribe env jobId vid path
      (updateJobStatus db1 jobId Status.transcribing none (some vid)
        (some path) none now) now env.transcribe

/-- Content-id check of `_process_job`: a falsy id raises before any
store write. -/
def processVid (env : PipelineEnv) (jobId : Nat) (url : String) (db : DBState)
    (now : Nat) (meta : Metadata) : Option String → DBState × Option String
  | none => (db, some "yt-dlp metadata did not include video id")
  | some vid =>
    if vid = "" then (db, some "yt-dlp metadata did not include video id")
    else
      processDownload env jobId vid (upsertVideo db vid url meta now) now
        env.download

/-- Metadata stage of `_process_job`: the content record is upserted as
soon as the id is known. -/
def processMeta (env : PipelineEnv) (jobId : Nat) (url : String) (db : DBState)
    (now : Nat) : StageResult Metadata → DBState × Option String
  | StageResult.failure e => (db, some e)
  | StageResult.success meta => processVid env jobId url db now meta meta.idField

/-- Embedding of `IngesterService._process_job`: the four stages in
pipeline order with their store writes; the returned option is the
message of the first raised failure, with all writes of earlier stages
already applied and no later write applied. -/
def processJob (env : PipelineEnv) (jobId : Nat) (url : String) (db : DBState)
    (now : Nat) : DBState × Option String :=
  processMeta env jobId url db now env.fetchMeta

/-- Deterministic refinement of the claim query: the first queued row in
rowid order among those minimal for the claim preorder (one of the
orders SQL admits). -/
def reserveFold : Option JobRow → JobRow → Option JobRow
  | none, r => if r.status = Status.queued then some r else none
  | some b, r =>
    if r.status = Status.queued then
      (if keyBefore r b then some r else some b)
    else some b

/-- Scan of the job table realizing the deterministic claim selection. -/
def reserveSelect (jobs : List JobRow) : Option JobRow :=
  jobs.foldl reserveFold none

/-- Executable `reserve_next_job`, used by the worker-loop embedding. -/
def reserveNextFn (db : DBState) (now : Nat) : Option JobClaim × DBState :=
  match reserveSelect db.jobs with
  | none => (none, db)
  | some r => (some ⟨r.id, r.url, Status.downloading, r.priority⟩,
      markClaimed db r.id now)

/-- Per-job boundary of the worker loop: a raised failure becomes a
terminal `failed` update with the raised message as the error text. -/
def workerHandle (jc : JobClaim) (now : Nat) : DBState × Option String → DBState
  | (db2, none) => db2
  | (db2, some e) =>
    updateJobStatus db2 jc.id Status.failed (some e) none none none now

/-- Claim-and-process part of one worker-loop iteration. -/
def workerClaimed (envOf : Nat → PipelineEnv) (now : Nat) :
    Option JobClaim × DBState → DBState
  | (none, db1) => db1
  | (some jc, db1) =>
    workerHandle jc now (processJob (envOf jc.id) jc.id jc.url db1 now)

/-- One iteration of `IngesterService._worker_loop`: claim the next job
and run `_process_job`; every raised failure is caught and converted to
a terminal `failed` update so the loop itself survives. -/
def workerStep (envOf : Nat → PipelineEnv) (db : DBState) (now : Nat) : DBState :=
  workerClaimed envOf now (reserveNextFn db now)

/-- Deletion performed during post-kill cleanup. -/
inductive FileAction where
  | unlink (path : String)
  | rmtree (dir : String)
deriving DecidableEq, Repr

/-- In-memory fields of `WorkerRuntime` (tui.py) that the kill/cleanup
path reads and writes. -/
structure TuiWorker where
  currentJobId : Option Nat := none
  currentUrl : Option String := none
  currentVideoId : Option String := none
  currentStage : Option String := none
  localVideoPath : Option String := none
  transcriptJsonPath : Option String := none
  lastError : Option String := none
  status : String := "idle"
  killRequested : Bool := false
  deleteAfterKill : Bool := false
deriving DecidableEq, Repr

/-- Embedding of `WorkerRuntime.kill_active`: returns false with no state
change when no job is active; otherwise records the kill request and
whether files should be deleted afterwards (the process kill itself is
an external effect). -/
def killActive (w : TuiWorker) (deleteFiles : Bool) : TuiWorker × Bool :=
  match w.currentJobId with
  | none => (w, false)
  | some _ => ({ w with killRequested := true, deleteAfterKill := deleteFiles }, true)

/-- Embedding of `PurePath.parent` for POSIX path strings. -/
def parentDir (p : String) : String :=
  let cs := p.data
  let seps := (List.range cs.length).filter (fun i => cs.get? i = some ('/' : Char))
  match seps.getLast? with
  | none => "."
  | some 0 => "/"
  | some i => String.mk (cs.take i)

/-- Embedding of `WorkerRuntime._maybe_cleanup_partial`: consume the
delete flag; when set, unlink the recorded media path if it exists and
remove the transcript directory (the recorded artifact's parent, else
the id-named directory) if it exists. -/
def maybeCleanupPartial (fileExists : String → Bool) (transcriptDir : String)
    (w : TuiWorker) : TuiWorker × List FileAction :=
  let shouldDelete := w.deleteAfterKill
  let w1 := { w with deleteAfterKill := false }
  if !shouldDelete then (w1, [])
  else
    let mediaActs := match w.localVideoPath with
      | some p => if fileExists p then [FileAction.unlink p] else []
      | none => []
    let transcriptActs := match w.transcriptJsonPath with
      | some t =>
        if fileExists (parentDir t) then [FileAction.rmtree (parentDir t)] else []
      | none =>
        match w.currentVideoId with
        | some vid =>
          let d := transcriptDir ++ "/" ++ vid
          if fileExists d then [FileAction.rmtree d] else []
        | none => []
    (w1, mediaActs ++ transcriptActs)

/-- Embedding of the `except` branch of `WorkerRuntime._loop`: consume
the kill flag to pick the error text, record the terminal `failed`
status, run the optional cleanup, and remember the error. -/
def onJobFailure (db : DBState) (w : TuiWorker) (jobId : Nat)
    (fileExists : String → Bool) (transcriptDir : String) (excMsg : String)
    (now : Nat) : DBState × TuiWorker × List FileAction :=
  let userKilled := w.killRequested
  let w1 := { w with killRequested := false }
  let err := if userKilled then "killed by user" else excMsg
  let db1 := updateJobStatus db jobId Status.failed (some err) none none none now
  let wa := maybeCleanupPartial fileExists transcriptDir w1
  let w2 := { wa.1 with lastError := some err, status := "failed" }
  (db1, w2, wa.2)

/-! Helper lemmas about the selection primitives. -/

theorem keyGt_irrefl (a : Nat × Nat) : ¬ keyGt a a := by
  simp [keyGt]

theorem keyGt_asymm {a b : Nat × Nat} (h : keyGt a b) : ¬ keyGt b a := by
  obtain ⟨a1, a2⟩ := a
  obtain ⟨b1, b2⟩ := b
  simp only [keyGt] at h ⊢
  omega

theorem keyGt_neg_trans {a b c : Nat × Nat} (hab : ¬ keyGt a b)
    (hbc : ¬ keyGt b c) : ¬ keyGt a c := by
  obtain ⟨a1, a2⟩ := a
  obtain ⟨b1, b2⟩ := b
  obtain ⟨c1, c2⟩ := c
  simp only [keyGt, not_or, not_and, not_lt] at hab hbc ⊢
  omega

theorem foldl_pickBetter_mem (key : MediaFile → Nat × Nat) :
    ∀ (l : List MediaFile) (acc : Option MediaFile) (m : MediaFile),
      l.foldl (pickBetter key) acc = some m → acc = some m ∨ m ∈ l := by
  intro l
  induction l with
  | nil => intro acc m h; exact Or.inl h
  | cons x xs ih =>
    intro acc m h
    simp only [List.foldl_cons] at h
    rcases ih (pickBetter key acc x) m h with h2 | h2
    · cases acc with
      | none =>
        simp only [pickBetter] at h2
        injection h2 with h3
        exact Or.inr (by simp [h3])
      | some b =>
        simp only [pickBetter] at h2
        by_cases hk : keyGt (key x) (key b)
        · rw [if_pos hk] at h2
          injection h2 with h3
          exact Or.inr (by simp [h3])
        · rw [if_neg hk] at h2
          exact Or.inl h2
    · exact Or.inr (List.mem_cons_of_mem _ h2)

theorem foldl_pickBetter_dom (key : MediaFile → Nat × Nat) :
    ∀ (l : List MediaFile) (acc : Option MediaFile) (m : MediaFile),
      l.foldl (pickBetter key) acc = some m →
      (∀ x ∈ l, ¬ keyGt (key x) (key m)) ∧
        (∀ b, acc = some b → ¬ keyGt (key b) (key m)) := by
  intro l
  induction l with
  | nil =>
    intro acc m h
    refine ⟨by simp, ?_⟩
    intro b hb
    rw [hb] at h
    cases h
    exact keyGt_irrefl _
  | cons x xs ih =>
    intro acc m h
    simp only [List.foldl_cons] at h
    obtain ⟨htail, hacc⟩ := ih (pickBetter key acc x) m h
    have hx : ¬ keyGt (key x) (key m) := by
      cases acc with
      | none => exact hacc x rfl
      | some b =>
        by_cases hk : keyGt (key x) (key b)
        · exact hacc x (by simp [pickBetter, if_pos hk])
        · exact keyGt_neg_trans hk (hacc b (by simp [pickBetter, if_neg hk]))
    refine ⟨?_, ?_⟩
    · intro y hy
      rcases List.mem_cons.mp hy with hy | hy
      · rw [hy]; exact hx
      · exact htail y hy
    · intro b hb
      subst hb
      by_cases hk : keyGt (key x) (key b)
      · exact keyGt_neg_trans (keyGt_asymm hk) hx
      · exact hacc b (by simp [pickBetter, if_neg hk])

theorem selectFirstMax_mem {key : MediaFile → Nat × Nat} {l : List MediaFile}
    {m : MediaFile} (h : selectFirstMax key l = some m) : m ∈ l := by
  rcases foldl_pickBetter_mem key l none m h with h2 | h2
  · cases h2
  · exact h2

theorem selectFirstMax_isMax {key : MediaFile → Nat × Nat} {l : List MediaFile}
    {m : MediaFile} (h : selectFirstMax key l = some m) :
    ∀ x ∈ l, ¬ keyGt (key x) (key m) :=
  (foldl_pickBetter_dom key l none m h).1

theorem foldl_pickBetter_some (key : MediaFile → Nat × Nat) :
    ∀ (l : List MediaFile) (b : MediaFile),
      ∃ m, l.foldl (pickBetter key) (some b) = some m := by
  intro l
  induction l with
  | nil => intro b; exact ⟨b, rfl⟩
  | cons x xs ih =>
    intro b
    simp only [List.foldl_cons, pickBetter]
    by_cases hk : keyGt (key x) (key b)
    · rw [if_pos hk]; exact ih x
    · rw [if_neg hk]; exact ih b

theorem selectFirstMax_of_ne_nil {key : MediaFile → Nat × Nat}
    {l : List MediaFile} (h : l ≠ []) : ∃ m, selectFirstMax key l = some m := by
  cases l with
  | nil => exact absurd rfl h
  | cons x xs => exact foldl_pickBetter_some key xs x

theorem selectPrimaryVideo_ok_mem {l : List MediaFile} {m : MediaFile}
    (h : selectPrimaryVideo l = Except.ok m) : m ∈ l := by
  unfold selectPrimaryVideo at h
  cases h2 : selectFirstMax videoKey l with
  | none => rw [h2] at h; cases h
  | some m0 =>
    rw [h2] at h
    cases h
    exact selectFirstMax_mem h2

theorem selectPrimaryMedia_ok_mem {l : List MediaFile} {m : MediaFile}
    (h : selectPrimaryMedia l = Except.ok m) : m ∈ l := by
  unfold selectPrimaryMedia at h
  cases h2 : selectFirstMax mediaKey l with
  | none => rw [h2] at h; cases h
  | some m0 =>
    rw [h2] at h
    cases h
    exact selectFirstMax_mem h2

theorem pickLargest_mem {l : List MediaFile} {m : MediaFile}
    (h : pickLargest l = some m) : m ∈ l :=
  selectFirstMax_mem h

theorem mem_fallbackPaths {files : List MediaFile} {vid : String}
    {m : MediaFile} (h : m ∈ fallbackPaths files vid) :
    m ∈ files ∧ strStartsWith m.base vid = true ∧ m.isFile = true ∧
      strEndsWith m.base ".part" = false := by
  unfold fallbackPaths at h
  by_cases hv : vid = ""
  · rw [if_pos hv] at h
    exact absurd h (List.not_mem_nil m)
  · rw [if_neg hv, mem_sortBy] at h
    have hmem := List.mem_filter.mp h
    have hp := hmem.2
    simp only [Bool.and_eq_true] at hp
    refine ⟨hmem.1, hp.1.1, hp.1.2, ?_⟩
    cases hb : strEndsWith m.base ".part"
    · rfl
    · rw [hb] at hp
      simp at hp

theorem mem_dedupByPathAux {m : MediaFile} :
    ∀ (l : List MediaFile) (seen : List String), m ∈ dedupByPathAux seen l → m ∈ l := by
  intro l
  induction l with
  | nil => intro seen h; cases h
  | cons x xs ih =>
    intro seen h
    unfold dedupByPathAux at h
    by_cases hs : seen.contains x.path
    · rw [if_pos hs] at h
      exact List.mem_cons_of_mem _ (ih seen h)
    · rw [if_neg hs] at h
      rcases List.mem_cons.mp h with h2 | h2
      · simp [h2]
      · exact List.mem_cons_of_mem _ (ih _ h2)

theorem mem_dedupByPath {l : List MediaFile} {m : MediaFile}
    (h : m ∈ dedupByPath l) : m ∈ l :=
  mem_dedupByPathAux l [] h

theorem mem_mergeWithAV {env : FsEnv} {files : List MediaFile} {vid : String}
    {m : MediaFile} (h : m ∈ mergeWithAV env files vid) :
    m ∈ fallbackPaths files vid := by
  unfold mergeWithAV mergeWithVideo at h
  exact (List.mem_filter.mp (List.mem_filter.mp h).1).1

theorem mergeSources_mem {env : FsEnv} {files : List MediaFile} {vid : String}
    {vs aud : MediaFile} (h : mergeSources env files vid = some (vs, aud)) :
    vs ∈ fallbackPaths files vid ∧ aud ∈ fallbackPaths files vid := by
  unfold mergeSources at h
  cases h1 : pickLargest (mergeWithVideo env files vid) with
  | none => rw [h1] at h; cases h
  | some v0 =>
    cases h2 : pickLargest (mergeAudioOnly env files vid) with
    | none => rw [h1, h2] at h; cases h
    | some a0 =>
      rw [h1, h2] at h
      injection h with h3
      obtain ⟨hv, ha⟩ := Prod.mk.injEq .. ▸ h3
      constructor
      · have := pickLargest_mem h1
        unfold mergeWithVideo at this
        exact hv ▸ (List.mem_filter.mp this).1
      · have := pickLargest_mem h2
        unfold mergeAudioOnly mergeWithAudio at this
        exact ha ▸ (List.mem_filter.mp (List.mem_filter.mp this).1).1

theorem mergeStreams_ok_some_classify {cfg : IngesterConfig} {env : FsEnv}
    {files : List MediaFile} {vid : String} {p : String}
    (h : mergeStreams cfg env files vid = Except.ok (some p)) :
    (∃ m, m ∈ fallbackPaths files vid ∧ p = m.path) ∨
      p = mergedMp4Path cfg vid ∨ p = mergedMkvPath cfg vid ∨
        p = compatMp4Path cfg vid := by
  unfold mergeStreams at h
  by_cases h1 : (fallbackPaths files vid).isEmpty
  · rw [if_pos h1] at h
    simp at h
  · rw [if_neg h1] at h
    by_cases h2 : !(mergeWithAV env files vid).isEmpty
    · rw [if_pos h2] at h
      cases h3 : selectPrimaryVideo (mergeWithAV env files vid) with
      | error e => rw [h3] at h; simp [Except.map] at h
      | ok m =>
        rw [h3] at h
        simp only [Except.map, Except.ok.injEq, Option.some.injEq] at h
        exact Or.inl ⟨m, mem_mergeWithAV (selectPrimaryVideo_ok_mem h3), h.symm⟩
    · rw [if_neg h2] at h
      cases h4 : mergeSources env files vid with
      | none => rw [h4] at h; simp [mergeFromSources] at h
      | some pair =>
        obtain ⟨vs, aud⟩ := pair
        rw [h4] at h
        simp only [mergeFromSources] at h
        by_cases ha : mergeAttemptOk env 0 = true
        · rw [if_pos ha] at h
          simp only [Except.ok.injEq, Option.some.injEq] at h
          exact Or.inr (Or.inl h.symm)
        · rw [if_neg ha] at h
          by_cases hb : mergeAttemptOk env 1 = true
          · rw [if_pos hb] at h
            simp only [Except.ok.injEq, Option.some.injEq] at h
            exact Or.inr (Or.inl h.symm)
          · rw [if_neg hb] at h
            by_cases hc : env.mergeRc 2 ≠ 0
            · rw [if_pos hc] at h
              simp at h
            · rw [if_neg hc] at h
              by_cases hd : mergeOutputOk env 2 = true
              · rw [if_pos hd] at h
                simp only [Except.ok.injEq, Option.some.injEq] at h
                exact Or.inr (Or.inr (Or.inl h.symm))
              · rw [if_neg hd] at h
                by_cases he : env.mergeRc 3 ≠ 0
                · rw [if_pos he] at h
                  simp at h
                · rw [if_neg he] at h
                  by_cases hf : mergeOutputOk env 3 = true
                  · rw [if_pos hf] at h
                    simp only [Except.ok.injEq, Option.some.injEq] at h
                    exact Or.inr (Or.inr (Or.inr h.symm))
                  · rw [if_neg hf] at h
                    simp at h

theorem ensureAudioReadyMedia_mem {env : FsEnv} {candidates : List MediaFile}
    {vid : String} {p : String}
    (h : ensureAudioReadyMedia env candidates vid = Except.ok p) :
    ∃ m, m ∈ candidates ∧ p = m.path := by
  unfold ensureAudioReadyMedia at h
  by_cases h1 : candidates.isEmpty
  · rw [if_pos h1] at h
    cases h
  · rw [if_neg h1] at h
    by_cases h2 : !(ensureWithAV env candidates).isEmpty
    · rw [if_pos h2] at h
      cases h3 : selectPrimaryMedia (ensureWithAV env candidates) with
      | error e => rw [h3] at h; simp [Except.map] at h
      | ok m =>
        rw [h3] at h
        simp only [Except.map, Except.ok.injEq] at h
        have hm := selectPrimaryMedia_ok_mem h3
        unfold ensureWithAV at hm
        exact ⟨m, (List.mem_filter.mp hm).1, h.symm⟩
    · rw [if_neg h2] at h
      by_cases h4 : !(ensureWithAudio env candidates).isEmpty
      · rw [if_pos h4] at h
        cases h5 : pickLargest (ensureWithAudio env candidates) with
        | some m =>
          rw [h5] at h
          simp only [Option.some_orElse, Except.ok.injEq] at h
          have hm := pickLargest_mem h5
          unfold ensureWithAudio at hm
          exact ⟨m, (List.mem_filter.mp hm).1, h.symm⟩
        | none =>
          rw [h5] at h
          simp only [Option.none_orElse] at h
          cases h6 : (ensureWithAudio env candidates).head? with
          | none => rw [h6] at h; cases h
          | some m =>
            rw [h6] at h
            simp only [Except.ok.injEq] at h
            have hm : m ∈ ensureWithAudio env candidates :=
              List.mem_of_mem_head? (by rw [h6]; exact rfl)
            unfold ensureWithAudio at hm
            exact ⟨m, (List.mem_filter.mp hm).1, h.symm⟩
      · rw [if_neg h4] at h
        cases h7 : selectPrimaryMedia candidates with
        | error e => rw [h7] at h; simp [Except.map] at h
        | ok m =>
          rw [h7] at h
          simp only [Except.map, Except.ok.injEq] at h
          exact ⟨m, selectPrimaryMedia_ok_mem h7, h.symm⟩

theorem mem_playbackWithVideo_none {env : FsEnv} {files : List MediaFile}
    {vid : String} {m : MediaFile}
    (h : m ∈ playbackWithVideo env files vid none) :
    m ∈ fallbackPaths files vid := by
  unfold playbackWithVideo playbackUnique at h
  have h2 := mem_dedupByPath (List.mem_filter.mp h).1
  simpa using h2

theorem resolvePlayback_ok_classify {cfg : IngesterConfig} {env : FsEnv}
    {files : List MediaFile} {vid : String} {p : String}
    (h : resolvePlayback cfg env files vid none = Except.ok p) :
    (∃ m, m ∈ fallbackPaths files vid ∧ p = m.path) ∨
      p = mergedMp4Path cfg vid ∨ p = mergedMkvPath cfg vid ∨
        p = compatMp4Path cfg vid := by
  unfold resolvePlayback at h
  by_cases h1 : !(playbackWithAV env files vid none).isEmpty
  · rw [if_pos h1] at h
    cases h2 : selectPrimaryVideo (playbackWithAV env files vid none) with
    | error e => rw [h2] at h; simp [Except.map] at h
    | ok m =>
      rw [h2] at h
      simp only [Except.map, Except.ok.injEq] at h
      have hm := selectPrimaryVideo_ok_mem h2
      unfold playbackWithAV at hm
      exact Or.inl ⟨m, mem_playbackWithVideo_none (List.mem_filter.mp hm).1, h.symm⟩
  · rw [if_neg h1] at h
    have htail : ∀ q, resolveVideoOnly env files vid none = Except.ok q →
        ∃ m, m ∈ fallbackPaths files vid ∧ q = m.path := by
      intro q hq
      unfold resolveVideoOnly at hq
      by_cases h5 : (playbackWithVideo env files vid none).isEmpty
      · rw [if_pos h5] at hq; cases hq
      · rw [if_neg h5] at hq
        cases h6 : selectPrimaryVideo (playbackWithVideo env files vid none) with
        | error e => rw [h6] at hq; simp [Except.map] at hq
        | ok m2 =>
          rw [h6] at hq
          simp only [Except.map, Except.ok.injEq] at hq
          exact ⟨m2, mem_playbackWithVideo_none (selectPrimaryVideo_ok_mem h6),
            hq.symm⟩
    cases h3 : mergeStreams cfg env files vid with
    | error e =>
      rw [h3] at h
      simp [resolveAfterMerge] at h
    | ok merged =>
      rw [h3] at h
      cases merged with
      | some m =>
        simp only [resolveAfterMerge] at h
        by_cases h4 : env.fileExists m
        · rw [if_pos h4] at h
          simp only [Except.ok.injEq] at h
          exact h ▸ mergeStreams_ok_some_classify h3
        · rw [if_neg h4] at h
          exact Or.inl (htail p h)
      | none =>
        simp only [resolveAfterMerge] at h
        exact Or.inl (htail p h)

/-- C9: every candidate-file lookup by content id goes through
`_fallback_paths`, which keeps only regular files whose name does not
end in `.part`; consequently the merge cascade's two ffmpeg inputs are
regular non-partial files, the download fallback only returns paths of
such candidates, and playback resolution returns either such a
candidate or one of the three cascade output paths (none of which is a
partial download). -/
theorem claim9_no_partial_candidates (files : List MediaFile) (vid : String) :
    (∀ m ∈ fallbackPaths files vid,
        m.isFile = true ∧ strEndsWith m.base ".part" = false)
  ∧ (∀ env vs aud, mergeSources env files vid = some (vs, aud) →
      (vs.isFile = true ∧ strEndsWith vs.base ".part" = false) ∧
        (aud.isFile = true ∧ strEndsWith aud.base ".part" = false))
  ∧ (∀ env p, ensureAudioReadyMedia env (fallbackPaths files vid) vid = Except.ok p →
      ∃ m, m ∈ fallbackPaths files vid ∧ p = m.path ∧ m.isFile = true ∧
        strEndsWith m.base ".part" = false)
  ∧ (∀ cfg env p, resolvePlayback cfg env files vid none = Except.ok p →
      (∃ m, m ∈ fallbackPaths files vid ∧ p = m.path ∧ m.isFile = true ∧
          strEndsWith m.base ".part" = false) ∨
        p = mergedMp4Path cfg vid ∨ p = mergedMkvPath cfg vid ∨
          p = compatMp4Path cfg vid) := by
  refine ⟨?_, ?_, ?_, ?_⟩
  · intro m hm
    have h := mem_fallbackPaths hm
    exact ⟨h.2.2.1, h.2.2.2⟩
  · intro env vs aud h
    obtain ⟨hv, ha⟩ := mergeSources_mem h
    have h1 := mem_fallbackPaths hv
    have h2 := mem_fallbackPaths ha
    exact ⟨⟨h1.2.2.1, h1.2.2.2⟩, ⟨h2.2.2.1, h2.2.2.2⟩⟩
  · intro env p h
    obtain ⟨m, hm, hp⟩ := ensureAudioReadyMedia_mem h
    have h1 := mem_fallbackPaths hm
    exact ⟨m, hm, hp, h1.2.2.1, h1.2.2.2⟩
  · intro cfg env p h
    rcases resolvePlayback_ok_classify h with ⟨m, hm, hp⟩ | h2
    · have h1 := mem_fallbackPaths hm
      exact Or.inl ⟨m, hm, hp, h1.2.2.1, h1.2.2.2⟩
    · exact Or.inr h2

/-! Claims C10 and C6: search-query normalization and segment
replacement. -/

/-- C10: both search operations return the empty list for every blank
query on every store (the store is never consulted), and for any other
query the result depends on the query only through its
whitespace-trimmed, lowercased text. -/
theorem claim10_search_query_normalization (db : DBState) (q r : String)
    (limit : Nat) :
    (pyStrip q = "" →
      searchTranscriptSegments db q limit = [] ∧
        searchVideosByTranscript db q limit = [])
  ∧ (pyLower (pyStrip q) = pyLower (pyStrip r) →
      searchTranscriptSegments db q limit = searchTranscriptSegments db r limit ∧
        searchVideosByTranscript db q limit = searchVideosByTranscript db r limit) := by
  constructor
  · intro h
    have h2 : pyLower (pyStrip q) = "" := by rw [h]; rfl
    constructor
    · simp [searchTranscriptSegments, h2]
    · simp [searchVideosByTranscript, h2]
  · intro h
    constructor
    · unfold searchTranscriptSegments
      rw [h]
    · unfold searchVideosByTranscript
      rw [h]

/-- Small concrete store exercising the search operations. -/
def dbSearchW : DBState :=
  { jobs := [],
    videos := [{ videoId := "v", sourceUrl := "s", title := some "T" }],
    segments := [{ videoId := "v", segmentIndex := 0, startMs := 0,
                   endMs := 1000, text := "Hello World" }],
    nextJobId := 1 }

theorem claim10_witness :
    (pyStrip "   " = "")
  ∧ searchTranscriptSegments dbSearchW "   " 10 = []
  ∧ searchVideosByTranscript dbSearchW "   " 10 = []
  ∧ (pyLower (pyStrip " Hello") = pyLower (pyStrip "hello "))
  ∧ searchTranscriptSegments dbSearchW " Hello" 10 =
      searchTranscriptSegments dbSearchW "hello " 10 := by
  have h1 := claim10_search_query_normalization dbSearchW "   " "x" 10
  have h2 := claim10_search_query_normalization dbSearchW " Hello" "hello " 10
  have hb : pyStrip "   " = "" := by decide
  have hn : pyLower (pyStrip " Hello") = pyLower (pyStrip "hello ") := by decide
  exact ⟨hb, (h1.1 hb).1, (h1.1 hb).2, hn, (h2.2 hn).1⟩

theorem filter_all_true {α : Type} (p : α → Bool) (l : List α)
    (h : ∀ a ∈ l, p a = true) : l.filter p = l := by
  induction l with
  | nil => rfl
  | cons x xs ih =>
    rw [List.filter_cons, if_pos (by simp [h x (by simp)])]
    rw [ih (fun a ha => h a (List.mem_cons_of_mem _ ha))]

theorem filter_all_false {α : Type} (p : α → Bool) (l : List α)
    (h : ∀ a ∈ l, p a = false) : l.filter p = [] := by
  induction l with
  | nil => rfl
  | cons x xs ih =>
    rw [List.filter_cons, if_neg (by simp [h x (by simp)])]
    exact ih (fun a ha => h a (List.mem_cons_of_mem _ ha))

theorem segRowsOf_fields {vid : String} {segs : List SegIn} {r : SegRow}
    (h : r ∈ segRowsOf vid segs) : r.videoId = vid ∧ ¬ r.text = "" := by
  unfold segRowsOf at h
  obtain ⟨p, hp, hf⟩ := List.mem_filterMap.mp h
  by_cases hb : pyStrip p.2.text = ""
  · rw [if_pos hb] at hf
    cases hf
  · rw [if_neg hb] at hf
    injection hf with hf
    rw [← hf]
    exact ⟨rfl, hb⟩

/-- C6 (amended): `replace_segments` removes exactly the stored rows of
the given content id and stores exactly the converted input rows in
order, keeping original indices, dropping blank-text segments, storing
stripped text, and converting seconds to milliseconds by truncation
toward zero (Python `int(x * 1000)`), not by rounding to nearest. -/
theorem claim6_replace_segments (db : DBState) (vid : String)
    (segs : List SegIn) :
    ((replaceTranscriptSegments db vid segs).segments.filter
        (fun s => s.videoId = vid) = segRowsOf vid segs)
  ∧ ((replaceTranscriptSegments db vid segs).segments.filter
        (fun s => ¬ s.videoId = vid) =
      db.segments.filter (fun s => ¬ s.videoId = vid))
  ∧ (∀ i sg, (i, sg) ∈ segs.enum → ¬ pyStrip sg.text = "" →
      ({ videoId := vid, segmentIndex := i,
         startMs := truncTowardZero (sg.startSec * 1000),
         endMs := truncTowardZero (sg.endSec * 1000),
         text := pyStrip sg.text } : SegRow) ∈ segRowsOf vid segs)
  ∧ (∀ r ∈ segRowsOf vid segs, r.videoId = vid ∧ ¬ r.text = "") := by
  have hvid : ∀ r ∈ segRowsOf vid segs, r.videoId = vid :=
    fun r hr => (segRowsOf_fields hr).1
  refine ⟨?_, ?_, ?_, fun r hr => segRowsOf_fields hr⟩
  · show ((db.segments.filter (fun s => ¬ s.videoId = vid) ++
        segRowsOf vid segs).filter (fun s => s.videoId = vid)) = _
    rw [List.filter_append]
    rw [filter_all_false _ _ (by
      intro a ha
      have h2 := List.mem_filter.mp ha
      simpa using h2.2)]
    rw [filter_all_true _ _ (by
      intro a ha
      simpa using hvid a ha)]
    rfl
  · show ((db.segments.filter (fun s => ¬ s.videoId = vid) ++
        segRowsOf vid segs).filter (fun s => ¬ s.videoId = vid)) = _
    rw [List.filter_append]
    rw [filter_all_true (fun s => ¬ s.videoId = vid)
      (db.segments.filter (fun s => ¬ s.videoId = vid)) (by
      intro a ha
      exact (List.mem_filter.mp ha).2)]
    rw [filter_all_false (fun s => ¬ s.videoId = vid) (segRowsOf vid segs) (by
      intro a ha
      simpa using hvid a ha)]
    rw [List.append_nil]
  · intro i sg hmem hb
    unfold segRowsOf
    exact List.mem_filterMap.mpr ⟨(i, sg), hmem, by rw [if_neg hb]⟩

/-- C6 counterexample store: one segment ending at 0.0006 seconds, i.e.
0.6 milliseconds, which the code stores as 0 while rounding gives 1. -/
def segFractional : SegIn := { startSec := 0, endSec := 3 / 5000, text := "hello" }

theorem claim6_counterexample :
    (replaceTranscriptSegments {} "v" [segFractional]).segments =
      [{ videoId := "v", segmentIndex := 0, startMs := 0, endMs := 0,
         text := "hello" }]
  ∧ round ((3 : Rat) / 5000 * 1000) = (1 : Int)
  ∧ ¬ ((0 : Int) = 1) := by
  have hstrip : pyStrip segFractional.text = "hello" := by decide
  have hs : truncTowardZero (segFractional.startSec * 1000) = 0 := by
    show truncTowardZero ((0 : Rat) * 1000) = 0
    norm_num [truncTowardZero]
  have he : truncTowardZero (segFractional.endSec * 1000) = 0 := by
    show truncTowardZero ((3 / 5000 : Rat) * 1000) = 0
    norm_num [truncTowardZero]
  refine ⟨?_, by norm_num [round_eq], by decide⟩
  show segRowsOf "v" [segFractional] = _
  unfold segRowsOf
  simp [hstrip, hs, he]

theorem claim6_witness :
    ((0, ({ startSec := 0, endSec := 1, text := "hi" } : SegIn)) ∈
      ([{ startSec := 0, endSec := 1, text := "hi" }] : List SegIn).enum)
  ∧ ¬ pyStrip (({ startSec := 0, endSec := 1, text := "hi" } : SegIn)).text = ""
  ∧ ({ videoId := "v", segmentIndex := 0,
       startMs := truncTowardZero ((0 : Rat) * 1000),
       endMs := truncTowardZero ((1 : Rat) * 1000),
       text := pyStrip "hi" } : SegRow) ∈
      segRowsOf "v" [{ startSec := 0, endSec := 1, text := "hi" }]
  ∧ truncTowardZero ((1 : Rat) * 1000) = 1000 := by
  refine ⟨by decide, by decide, ?_, by norm_num [truncTowardZero]⟩
  exact (claim6_replace_segments {} "v"
      [{ startSec := 0, endSec := 1, text := "hi" }]).2.2.1 0
    { startSec := 0, endSec := 1, text := "hi" } (by decide) (by decide)

/-! Claims C3, C5 and C2: playback selection, download fallback and the
merge cascade. -/

theorem isEmpty_false_of_ne_nil {α : Type} {l : List α} (h : l ≠ []) :
    l.isEmpty = false := by
  cases l with
  | nil => exact absurd rfl h
  | cons x xs => rfl

theorem ne_nil_of_not_isEmpty {α : Type} {l : List α}
    (h : ¬ l.isEmpty = true) : l ≠ [] := by
  intro hh
  rw [hh] at h
  exact h rfl

/-- Error can only leave `resolveVideoOnly` as the no-playable-media
message. -/
theorem resolveVideoOnly_error {env : FsEnv} {files : List MediaFile}
    {vid : String} {pref : Option MediaFile} {e : String}
    (h : resolveVideoOnly env files vid pref = Except.error e) :
    e = noPlayableMsg vid := by
  unfold resolveVideoOnly at h
  by_cases h5 : (playbackWithVideo env files vid pref).isEmpty = true
  · rw [if_pos h5] at h
    injection h with h6
    exact h6.symm
  · rw [if_neg h5] at h
    obtain ⟨m, hm⟩ := @selectFirstMax_of_ne_nil videoKey _
      (ne_nil_of_not_isEmpty h5)
    unfold selectPrimaryVideo at h
    rw [hm] at h
    simp [Except.map] at h

/-- C3 (amended): when a candidate with both streams exists, playback
resolution returns the candidate maximal by the code's rank
(mkv 5 > mp4 4 > webm 3 > mov 2 = m4v 2 > everything else 0) with ties
broken by file size; when no such candidate exists and the cascade
produced nothing, the last resort is again the maximum of the
video-containing candidates under the same (rank, size) key — not the
largest by size alone. -/
theorem claim3_selection (cfg : IngesterConfig) (env : FsEnv)
    (files : List MediaFile) (vid : String) :
    (playbackWithAV env files vid none ≠ [] →
      ∃ m, selectFirstMax videoKey (playbackWithAV env files vid none) = some m ∧
        resolvePlayback cfg env files vid none = Except.ok m.path ∧
        m ∈ playbackWithAV env files vid none ∧
        ∀ x ∈ playbackWithAV env files vid none, ¬ keyGt (videoKey x) (videoKey m))
  ∧ (playbackWithAV env files vid none = [] →
      mergeStreams cfg env files vid = Except.ok none →
      playbackWithVideo env files vid none ≠ [] →
      ∃ m, selectFirstMax videoKey (playbackWithVideo env files vid none) = some m ∧
        resolvePlayback cfg env files vid none = Except.ok m.path ∧
        m ∈ playbackWithVideo env files vid none ∧
        ∀ x ∈ playbackWithVideo env files vid none,
          ¬ keyGt (videoKey x) (videoKey m)) := by
  constructor
  · intro h
    obtain ⟨m, hm⟩ := @selectFirstMax_of_ne_nil videoKey _ h
    refine ⟨m, hm, ?_, selectFirstMax_mem hm, selectFirstMax_isMax hm⟩
    unfold resolvePlayback
    rw [if_pos (by rw [isEmpty_false_of_ne_nil h]; rfl)]
    unfold selectPrimaryVideo
    rw [hm]
    rfl
  · intro hAV hmerge hv
    obtain ⟨m, hm⟩ := @selectFirstMax_of_ne_nil videoKey _ hv
    refine ⟨m, hm, ?_, selectFirstMax_mem hm, selectFirstMax_isMax hm⟩
    unfold resolvePlayback
    rw [if_neg (by simp [hAV])]
    rw [hmerge]
    simp only [resolveAfterMerge]
    unfold resolveVideoOnly
    rw [if_neg (by simp [isEmpty_false_of_ne_nil hv])]
    unfold selectPrimaryVideo
    rw [hm]
    rfl

/-- Configuration used by the concrete scenarios. -/
def cfgC : IngesterConfig := { mediaDir := "media" }

/-- Candidate with both streams in an mp4 container, 100 bytes. -/
def fileA : MediaFile := { path := "media/v.a.mp4", base := "v.a.mp4", size := 100 }

/-- Candidate with both streams in an mkv container, 50 bytes. -/
def fileB : MediaFile := { path := "media/v.b.mkv", base := "v.b.mkv", size := 50 }

/-- Environment probing every file as holding audio and video. -/
def envAV : FsEnv :=
  { probeAudio := fun _ => some true, probeVideo := fun _ => some true }

/-- Modelled from the claim's words: rank mp4/mkv highest, then
webm/mov, then m4v, then audio-only containers lowest; compare by
(rank, size). -/
def specClaimRank (m : MediaFile) : Nat :=
  let s := pyLower (suffixOfBase m.base)
  if s = ".mp4" ∨ s = ".mkv" then 3
  else if s = ".webm" ∨ s = ".mov" then 2
  else if s = ".m4v" then 1
  else 0

/-- Selection the claim describes: maximal by (claim rank, size). -/
def specSelectPlayable (l : List MediaFile) : Option MediaFile :=
  selectFirstMax (fun m => (specClaimRank m, m.size)) l

theorem claim3_counterexample :
    resolvePlayback cfgC envAV [fileA, fileB] "v" none = Except.ok "media/v.b.mkv"
  ∧ specSelectPlayable (playbackWithAV envAV [fileA, fileB] "v" none) = some fileA
  ∧ fileA.path = "media/v.a.mp4"
  ∧ ¬ ("media/v.b.mkv" = "media/v.a.mp4") := by
  exact ⟨rfl, rfl, rfl, by decide⟩

theorem claim3_witness :
    playbackWithAV envAV [fileA, fileB] "v" none ≠ []
  ∧ ∃ m, selectFirstMax videoKey (playbackWithAV envAV [fileA, fileB] "v" none)
        = some m ∧
      resolvePlayback cfgC envAV [fileA, fileB] "v" none = Except.ok m.path ∧
      m ∈ playbackWithAV envAV [fileA, fileB] "v" none ∧
      ∀ x ∈ playbackWithAV envAV [fileA, fileB] "v" none,
        ¬ keyGt (videoKey x) (videoKey m) := by
  exact ⟨by decide, (claim3_selection cfgC envAV [fileA, fileB] "v").1 (by decide)⟩

/-- C5 (amended): when the direct merge target is absent or lacks audio,
`download_video` falls back to `_ensure_audio_ready_media`, a pure
selection among the candidate files matching the content id; the
returned path is always one of those existing files and no merge is
performed. -/
theorem claim5_download_fallback (cfg : IngesterConfig) (env : FsEnv)
    (files : List MediaFile) (url vid : String)
    (hrc : env.dlRc = 0)
    (hmp4 : directMp4Ready cfg env vid = false) :
    downloadVideo cfg env files url vid =
      ensureAudioReadyMedia env (fallbackPaths files vid) vid
  ∧ ∀ p, downloadVideo cfg env files url vid = Except.ok p →
      ∃ m, m ∈ fallbackPaths files vid ∧ p = m.path := by
  have h1 : downloadVideo cfg env files url vid =
      ensureAudioReadyMedia env (fallbackPaths files vid) vid := by
    unfold downloadVideo
    rw [if_neg (by simp [hrc]), if_neg (by simp [hmp4])]
  exact ⟨h1, fun p hp => ensureAudioReadyMedia_mem (h1 ▸ hp)⟩

/-- Video-only candidate file of the split-download scenario. -/
def fileV : MediaFile :=
  { path := "media/v.f137.mp4", base := "v.f137.mp4", size := 100 }

/-- Audio-only candidate file of the split-download scenario. -/
def fileAud : MediaFile :=
  { path := "media/v.f251.webm", base := "v.f251.webm", size := 5 }

/-- Environment of the split download: the mp4 is video-only, the webm
audio-only, the direct merge target absent, and the first merge attempt
would succeed. -/
def envSplit : FsEnv :=
  { probeAudio := fun s => if s = "media/v.f251.webm" then some true else some false,
    probeVideo := fun s => if s = "media/v.f137.mp4" then some true else some false,
    mergeRc := fun i => if i = 0 then 0 else 1,
    mergeOutExists := fun _ => true,
    mergeOutAudio := fun _ => some true,
    mergeOutVideo := fun _ => some true,
    mergeOutSmoke := fun _ => true }

theorem claim5_counterexample :
    downloadVideo cfgC envSplit [fileV, fileAud] "https://example" "v" =
      Except.ok "media/v.f251.webm"
  ∧ mergeStreams cfgC envSplit [fileV, fileAud] "v" =
      Except.ok (some "media/v.merged.mp4")
  ∧ fileAud ∈ fallbackPaths [fileV, fileAud] "v"
  ∧ fileAud.path = "media/v.f251.webm"
  ∧ ¬ ("media/v.f251.webm" = "media/v.merged.mp4") := by
  exact ⟨rfl, rfl, by decide, rfl, by decide⟩

theorem claim5_witness :
    envSplit.dlRc = 0
  ∧ directMp4Ready cfgC envSplit "v" = false
  ∧ downloadVideo cfgC envSplit [fileV, fileAud] "u" "v" =
      ensureAudioReadyMedia envSplit (fallbackPaths [fileV, fileAud] "v") "v"
  ∧ ∃ m, m ∈ fallbackPaths [fileV, fileAud] "v" ∧ "media/v.f251.webm" = m.path := by
  have h := claim5_download_fallback cfgC envSplit [fileV, fileAud] "u" "v" rfl rfl
  exact ⟨rfl, rfl, h.1, h.2 "media/v.f251.webm" rfl⟩

theorem claim9_witness :
    fileV ∈ fallbackPaths [fileV, fileAud] "v"
  ∧ (fileV.isFile = true ∧ strEndsWith fileV.base ".part" = false)
  ∧ mergeSources envSplit [fileV, fileAud] "v" = some (fileV, fileAud)
  ∧ ((fileV.isFile = true ∧ strEndsWith fileV.base ".part" = false) ∧
      (fileAud.isFile = true ∧ strEndsWith fileAud.base ".part" = false)) := by
  have h := claim9_no_partial_candidates [fileV, fileAud] "v"
  exact ⟨by decide, h.1 fileV (by decide), rfl,
    h.2.1 envSplit fileV fileAud rfl⟩

/-- C2 (amended): in the merge cascade, a nonzero exit or failed
validation of strategies 1-2 and a failed validation of strategies 3-4
are non-fatal (the cascade returns rather than raises whenever
strategies 3 and 4 exit zero); but a nonzero tool exit in strategy 3 or
4 raises a process-failure error that propagates through
`resolve_playable` to the caller, and the no-playable-media error is
raised by `resolve_playable` itself, only when the cascade returned
without raising and no video-containing candidate remains. -/
theorem claim2_merge_nonfatal (cfg : IngesterConfig) (env : FsEnv)
    (files : List MediaFile) (vid : String) :
    (env.mergeRc 2 = 0 → env.mergeRc 3 = 0 →
      ∃ o, mergeStreams cfg env files vid = Except.ok o)
  ∧ (∀ e, mergeStreams cfg env files vid = Except.error e →
      env.mergeRc 2 ≠ 0 ∨ env.mergeRc 3 ≠ 0)
  ∧ (∀ e, resolvePlayback cfg env files vid none = Except.error e →
      e = noPlayableMsg vid ∨ mergeStreams cfg env files vid = Except.error e) := by
  have hpart1 : env.mergeRc 2 = 0 → env.mergeRc 3 = 0 →
      ∃ o, mergeStreams cfg env files vid = Except.ok o := by
    intro hrc2 hrc3
    unfold mergeStreams
    by_cases h1 : (fallbackPaths files vid).isEmpty = true
    · rw [if_pos h1]
      exact ⟨none, rfl⟩
    · rw [if_neg h1]
      by_cases h2 : mergeWithAV env files vid = []
      · rw [if_neg (by simp [h2])]
        cases h4 : mergeSources env files vid with
        | none => exact ⟨none, rfl⟩
        | some pair =>
          obtain ⟨vs, aud⟩ := pair
          simp only [mergeFromSources]
          by_cases ha : mergeAttemptOk env 0 = true
          · rw [if_pos ha]; exact ⟨_, rfl⟩
          · rw [if_neg ha]
            by_cases hb : mergeAttemptOk env 1 = true
            · rw [if_pos hb]; exact ⟨_, rfl⟩
            · rw [if_neg hb, if_neg (by simp [hrc2])]
              by_cases hd : mergeOutputOk env 2 = true
              · rw [if_pos hd]; exact ⟨_, rfl⟩
              · rw [if_neg hd, if_neg (by simp [hrc3])]
                by_cases hf : mergeOutputOk env 3 = true
                · rw [if_pos hf]; exact ⟨_, rfl⟩
                · rw [if_neg hf]; exact ⟨none, rfl⟩
      · obtain ⟨m, hm⟩ := @selectFirstMax_of_ne_nil videoKey _ h2
        rw [if_pos (by rw [isEmpty_false_of_ne_nil h2]; rfl)]
        unfold selectPrimaryVideo
        rw [hm]
        exact ⟨some m.path, rfl⟩
  refine ⟨hpart1, ?_, ?_⟩
  · intro e h
    by_contra hcon
    push_neg at hcon
    obtain ⟨o, ho⟩ := hpart1 hcon.1 hcon.2
    rw [h] at ho
    exact Except.noConfusion ho
  · intro e h
    unfold resolvePlayback at h
    by_cases h1 : playbackWithAV env files vid none = []
    · rw [if_neg (by simp [h1])] at h
      cases h3 : mergeStreams cfg env files vid with
      | error e0 =>
        rw [h3] at h
        simp only [resolveAfterMerge] at h
        injection h with h4
        right
        rw [h4]
      | ok merged =>
        rw [h3] at h
        cases merged with
        | some m =>
          simp only [resolveAfterMerge] at h
          by_cases h4 : env.fileExists m = true
          · rw [if_pos h4] at h
            exact Except.noConfusion h
          · rw [if_neg h4] at h
            exact Or.inl (resolveVideoOnly_error h)
        | none =>
          simp only [resolveAfterMerge] at h
          exact Or.inl (resolveVideoOnly_error h)
    · obtain ⟨m, hm⟩ := @selectFirstMax_of_ne_nil videoKey _ h1
      rw [if_pos (by rw [isEmpty_false_of_ne_nil h1]; rfl)] at h
      unfold selectPrimaryVideo at h
      rw [hm] at h
      simp [Except.map] at h

/-- Environment in which every merge attempt's tool exits nonzero and no
candidate holds both streams: strategy 3's `run_cmd` then raises. -/
def envFail : FsEnv :=
  { probeAudio := fun s => if s = "media/v.f251.webm" then some true else some false,
    probeVideo := fun s => if s = "media/v.f137.mp4" then some true else some false }

/-- Error message raised by the third merge strategy in the failing
scenario. -/
def claim2CounterMsg : String :=
  runCmdFailureMsg 1
    (cmdCopyMkv cfgC "media/v.f137.mp4" "media/v.f251.webm" (mergedMkvPath cfgC "v"))
    "" ""

theorem claim2_counterexample :
    mergeStreams cfgC envFail [fileV, fileAud] "v" =
      Except.error claim2CounterMsg
  ∧ resolvePlayback cfgC envFail [fileV, fileAud] "v" none =
      Except.error claim2CounterMsg
  ∧ ¬ (claim2CounterMsg = noPlayableMsg "v") := by
  exact ⟨rfl, rfl, by decide⟩

/-- Environment whose merge tools all exit zero but whose outputs never
validate, so the cascade is exhausted without raising. -/
def envRcZero : FsEnv :=
  { probeAudio := fun s => if s = "media/v.f251.webm" then some true else some false,
    probeVideo := fun s => if s = "media/v.f137.mp4" then some true else some false,
    mergeRc := fun _ => 0 }

theorem claim2_witness :
    (envRcZero.mergeRc 2 = 0 ∧ envRcZero.mergeRc 3 = 0)
  ∧ (∃ o, mergeStreams cfgC envRcZero [fileV, fileAud] "v" = Except.ok o)
  ∧ (claim2CounterMsg = noPlayableMsg "v" ∨
      mergeStreams cfgC envFail [fileV, fileAud] "v" =
        Except.error claim2CounterMsg) := by
  refine ⟨⟨rfl, rfl⟩,
    (claim2_merge_nonfatal cfgC envRcZero [fileV, fileAud] "v").1 rfl rfl,
    (claim2_merge_nonfatal cfgC envFail [fileV, fileAud] "v").2.2
      claim2CounterMsg rfl⟩

/-! Claim C7: operator kill with optional cleanup. -/

theorem updateJobStatus_failed_fields {db : DBState} {jobId : Nat}
    {err : String} {now : Nat} {r : JobRow}
    (h : r ∈ (updateJobStatus db jobId Status.failed (some err) none none none
      now).jobs) (hid : r.id = jobId) :
    r.status = Status.failed ∧ r.errorText = some err ∧
      r.finishedAt = some now := by
  unfold updateJobStatus at h
  obtain ⟨r0, hr0, hf⟩ := List.mem_map.mp h
  by_cases h2 : r0.id = jobId
  · rw [if_pos h2] at hf
    rw [← hf]
    refine ⟨rfl, rfl, ?_⟩
    simp
  · rw [if_neg h2] at hf
    exact absurd (hf ▸ hid) h2

theorem updateJobStatus_other {db : DBState} {jobId : Nat} {status : Status}
    {et vi lp tp : Option String} {now : Nat} {r : JobRow}
    (h : r ∈ db.jobs) (hne : ¬ r.id = jobId) :
    r ∈ (updateJobStatus db jobId status et vi lp tp now).jobs := by
  unfold updateJobStatus
  exact List.mem_map.mpr ⟨r, h, by rw [if_neg hne]⟩

/-- C7: killing a worker's active job returns true and, whatever the
raised exception's own message, records the job as failed with the
operator text "killed by user" (distinct from every `run_cmd`
tool-failure message); with `delete_files=true` the cleanup unlinks the
recorded media path when it exists and removes the recorded transcript
artifact's directory (or the id-named transcript directory) when it
exists; with `delete_files=false` no file action is performed at all. -/
theorem claim7_kill_outcome (db : DBState) (w : TuiWorker) (jobId : Nat)
    (fileExists : String → Bool) (transcriptDir : String) (excMsg : String)
    (now : Nat) (hjob : w.currentJobId = some jobId) :
    ((killActive w true).2 = true ∧ (killActive w false).2 = true)
  ∧ (∀ r ∈ (onJobFailure db (killActive w true).1 jobId fileExists
        transcriptDir excMsg now).1.jobs, r.id = jobId →
      r.status = Status.failed ∧ r.errorText = some "killed by user" ∧
        r.finishedAt = some now)
  ∧ (∀ p, w.localVideoPath = some p → fileExists p = true →
      FileAction.unlink p ∈ (onJobFailure db (killActive w true).1 jobId
        fileExists transcriptDir excMsg now).2.2)
  ∧ (∀ t, w.transcriptJsonPath = some t → fileExists (parentDir t) = true →
      FileAction.rmtree (parentDir t) ∈ (onJobFailure db (killActive w true).1
        jobId fileExists transcriptDir excMsg now).2.2)
  ∧ (∀ vid, w.transcriptJsonPath = none → w.currentVideoId = some vid →
      fileExists (transcriptDir ++ "/" ++ vid) = true →
      FileAction.rmtree (transcriptDir ++ "/" ++ vid) ∈ (onJobFailure db
        (killActive w true).1 jobId fileExists transcriptDir excMsg now).2.2)
  ∧ ((onJobFailure db (killActive w false).1 jobId fileExists transcriptDir
        excMsg now).2.2 = []
     ∧ ∀ r ∈ (onJobFailure db (killActive w false).1 jobId fileExists
          transcriptDir excMsg now).1.jobs, r.id = jobId →
        r.status = Status.failed ∧ r.errorText = some "killed by user")
  ∧ (∀ rc cmd out err, ¬ (runCmdFailureMsg rc cmd out err = "killed by user")) := by
  have hkt : killActive w true =
      ({ w with killRequested := true, deleteAfterKill := true }, true) := by
    unfold killActive
    rw [hjob]
  have hkf : killActive w false =
      ({ w with killRequested := true, deleteAfterKill := false }, true) := by
    unfold killActive
    rw [hjob]
  have hdbT : (onJobFailure db (killActive w true).1 jobId fileExists
      transcriptDir excMsg now).1 =
      updateJobStatus db jobId Status.failed (some "killed by user")
        none none none now := by
    rw [hkt]
    exact rfl
  have hdbF : (onJobFailure db (killActive w false).1 jobId fileExists
      transcriptDir excMsg now).1 =
      updateJobStatus db jobId Status.failed (some "killed by user")
        none none none now := by
    rw [hkf]
    exact rfl
  have hacts : (onJobFailure db (killActive w true).1 jobId fileExists
      transcriptDir excMsg now).2.2 =
      (match w.localVideoPath with
        | some p => if fileExists p then [FileAction.unlink p] else []
        | none => []) ++
      (match w.transcriptJsonPath with
        | some t =>
          if fileExists (parentDir t) then [FileAction.rmtree (parentDir t)]
          else []
        | none =>
          match w.currentVideoId with
          | some vid =>
            if fileExists (transcriptDir ++ "/" ++ vid) then
              [FileAction.rmtree (transcriptDir ++ "/" ++ vid)]
            else []
          | none => []) := by
    rw [hkt]
    exact rfl
  have hactsF : (onJobFailure db (killActive w false).1 jobId fileExists
      transcriptDir excMsg now).2.2 = [] := by
    rw [hkf]
    exact rfl
  have hmsg : ∀ rc cmd out err, ¬ (runCmdFailureMsg rc cmd out err =
      "killed by user") := by
    intro rc cmd out err h
    have h2 : (runCmdFailureMsg rc cmd out err).data.head? =
        "killed by user".data.head? := by rw [h]
    have h3 : (some ('C' : Char)) = some ('k' : Char) :=
      (rfl : some ('C' : Char) =
        (runCmdFailureMsg rc cmd out err).data.head?).trans
        (h2.trans (rfl : "killed by user".data.head? = some ('k' : Char)))
    injection h3 with h4
    exact absurd h4 (by decide)
  refine ⟨⟨by rw [hkt], by rw [hkf]⟩, ?_, ?_, ?_, ?_, ⟨hactsF, ?_⟩, hmsg⟩
  · intro r hr hid
    rw [hdbT] at hr
    exact updateJobStatus_failed_fields hr hid
  · intro p hp hfe
    rw [hacts, hp]
    simp [hfe]
  · intro t ht hfe
    rw [hacts, ht]
    simp [hfe]
  · intro vid htn hvid hfe
    rw [hacts, htn, hvid]
    simp [hfe]
  · intro r hr hid
    rw [hdbF] at hr
    have h5 := updateJobStatus_failed_fields hr hid
    exact ⟨h5.1, h5.2.1⟩

/-- Worker state with an active job, a recorded media path and a known
video id but no transcript artifact yet. -/
def wAct : TuiWorker :=
  { currentJobId := some 7, currentVideoId := some "x",
    localVideoPath := some "media/x.mp4", transcriptJsonPath := none }

/-- Store holding the active job of the kill scenario. -/
def dbW7 : DBState :=
  { jobs := [{ id := 7, url := "u", status := Status.downloading,
               priority := 0, createdAt := 1 }] }

/-- Filesystem on which every queried path exists. -/
def fsAll : String → Bool := fun _ => true

theorem claim7_witness :
    wAct.currentJobId = some 7
  ∧ (killActive wAct true).2 = true
  ∧ FileAction.unlink "media/x.mp4" ∈
      (onJobFailure dbW7 (killActive wAct true).1 7 fsAll "tr" "boom" 5).2.2
  ∧ FileAction.rmtree ("tr" ++ "/" ++ "x") ∈
      (onJobFailure dbW7 (killActive wAct true).1 7 fsAll "tr" "boom" 5).2.2
  ∧ (onJobFailure dbW7 (killActive wAct false).1 7 fsAll "tr" "boom" 5).2.2 = []
  ∧ ¬ (runCmdFailureMsg 1 ["ffmpeg"] "" "" = "killed by user") := by
  have h := claim7_kill_outcome dbW7 wAct 7 fsAll "tr" "boom" 5 rfl
  exact ⟨rfl, h.1.1, h.2.2.1 "media/x.mp4" rfl rfl,
    h.2.2.2.2.1 "x" rfl rfl rfl, h.2.2.2.2.2.1.1,
    h.2.2.2.2.2.2 1 ["ffmpeg"] "" ""⟩

/-! Claim C8: pipeline-stage failure handling in the worker loop. -/

theorem upsertVideo_segments (db : DBState) (vid url : String) (meta : Metadata)
    (now : Nat) : (upsertVideo db vid url meta now).segments = db.segments := by
  unfold upsertVideo
  split_ifs <;> rfl

theorem upsertVideo_jobs (db : DBState) (vid url : String) (meta : Metadata)
    (now : Nat) : (upsertVideo db vid url meta now).jobs = db.jobs := by
  unfold upsertVideo
  split_ifs <;> rfl

theorem updateJobStatus_segments (db : DBState) (jobId : Nat) (status : Status)
    (et vi lp tp : Option String) (now : Nat) :
    (updateJobStatus db jobId status et vi lp tp now).segments = db.segments :=
  rfl

theorem replaceTranscriptSegments_jobs (db : DBState) (vid : String)
    (segs : List SegIn) :
    (replaceTranscriptSegments db vid segs).jobs = db.jobs := rfl

/-- A stage failure leaves the transcript-segment table untouched: every
failure exit of `_process_job` happens before `replace_segments`. -/
theorem processJob_fail_segments {env : PipelineEnv} {jobId : Nat} {url : String}
    {db : DBState} {now : Nat} {db2 : DBState} {e : String}
    (h : processJob env jobId url db now = (db2, some e)) :
    db2.segments = db.segments := by
  unfold processJob at h
  cases hm : env.fetchMeta with
  | failure e0 =>
    rw [hm] at h
    simp only [processMeta] at h
    injection h with h1 h2
    rw [← h1]
  | success meta =>
    rw [hm] at h
    simp only [processMeta] at h
    cases hid : meta.idField with
    | none =>
      rw [hid] at h
      simp only [processVid] at h
      injection h with h1 h2
      rw [← h1]
    | some vid =>
      rw [hid] at h
      simp only [processVid] at h
      by_cases hv : vid = ""
      · rw [if_pos hv] at h
        injection h with h1 h2
        rw [← h1]
      · rw [if_neg hv] at h
        cases hd : env.download with
        | failure e0 =>
          rw [hd] at h
          simp only [processDownload] at h
          injection h with h1 h2
          rw [← h1]
          exact upsertVideo_segments db vid url meta now
        | success path =>
          rw [hd] at h
          simp only [processDownload] at h
          cases htr : env.transcribe with
          | failure e0 =>
            rw [htr] at h
            simp only [processTranscribe] at h
            injection h with h1 h2
            rw [← h1]
            rw [updateJobStatus_segments]
            exact upsertVideo_segments db vid url meta now
          | success tpath =>
            rw [htr] at h
            simp only [processTranscribe] at h
            cases hl : env.loadSegments with
            | failure e0 =>
              rw [hl] at h
              simp only [processLoadSegs] at h
              injection h with h1 h2
              rw [← h1]
              rw [updateJobStatus_segments]
              exact upsertVideo_segments db vid url meta now
            | success segs =>
              rw [hl] at h
              simp only [processLoadSegs] at h
              injection h with h1 h2
              exact Option.noConfusion h2

/-- Rows other than the processed job's row pass through `_process_job`
unchanged. -/
theorem processJob_other_rows {env : PipelineEnv} {jobId : Nat} {url : String}
    {db : DBState} {now : Nat} {r : JobRow}
    (hr : r ∈ db.jobs) (hne : ¬ r.id = jobId) :
    r ∈ (processJob env jobId url db now).1.jobs := by
  have hupd : ∀ (d : DBState) (st : Status) (et vi lp tp : Option String),
      r ∈ d.jobs → r ∈ (updateJobStatus d jobId st et vi lp tp now).jobs := by
    intro d st et vi lp tp hmem
    exact updateJobStatus_other hmem hne
  unfold processJob
  cases hm : env.fetchMeta with
  | failure e0 =>
    simp only [processMeta]
    exact hr
  | success meta =>
    simp only [processMeta]
    cases hid : meta.idField with
    | none =>
      simp only [processVid]
      exact hr
    | some vid =>
      simp only [processVid]
      by_cases hv : vid = ""
      · rw [if_pos hv]
        exact hr
      · rw [if_neg hv]
        have hr1 : r ∈ (upsertVideo db vid url meta now).jobs := by
          rw [upsertVideo_jobs]
          exact hr
        cases hd : env.download with
        | failure e0 =>
          simp only [processDownload]
          exact hr1
        | success path =>
          simp only [processDownload]
          have hr2 := hupd (upsertVideo db vid url meta now) Status.transcribing
            none (some vid) (some path) none hr1
          cases htr : env.transcribe with
          | failure e0 =>
            simp only [processTranscribe]
            exact hr2
          | success tpath =>
            simp only [processTranscribe]
            cases hl : env.loadSegments with
            | failure e0 =>
              simp only [processLoadSegs]
              exact hr2
            | success segs =>
              simp only [processLoadSegs]
              refine hupd _ Status.done none (some vid) (some path)
                (some tpath) ?_
              rw [replaceTranscriptSegments_jobs]
              exact hr2

theorem markClaimed_other {db : DBState} {i now : Nat} {r : JobRow}
    (hr : r ∈ db.jobs) (hne : ¬ r.id = i) :
    r ∈ (markClaimed db i now).jobs := by
  unfold markClaimed
  refine List.mem_map.mpr ⟨r, hr, ?_⟩
  unfold claimFlip
  rw [if_neg (by simp [hne])]

theorem foldl_reserveFold_some :
    ∀ (l : List JobRow) (b : JobRow), ∃ r, l.foldl reserveFold (some b) = some r := by
  intro l
  induction l with
  | nil => intro b; exact ⟨b, rfl⟩
  | cons x xs ih =>
    intro b
    simp only [List.foldl_cons, reserveFold]
    by_cases hq : x.status = Status.queued
    · rw [if_pos hq]
      by_cases hk : keyBefore x b
      · rw [if_pos hk]; exact ih x
      · rw [if_neg hk]; exact ih b
    · rw [if_neg hq]
      exact ih b

theorem reserveSelect_some_of_queued {jobs : List JobRow} {r : JobRow}
    (hr : r ∈ jobs) (hq : r.status = Status.queued) :
    ∃ r2, reserveSelect jobs = some r2 := by
  unfold reserveSelect
  induction jobs with
  | nil => cases hr
  | cons x xs ih =>
    simp only [List.foldl_cons]
    by_cases hxq : x.status = Status.queued
    · have hx : reserveFold none x = some x := by
        simp only [reserveFold]
        rw [if_pos hxq]
      rw [hx]
      exact foldl_reserveFold_some xs x
    · have hx : reserveFold none x = none := by
        simp only [reserveFold]
        rw [if_neg hxq]
      rw [hx]
      rcases List.mem_cons.mp hr with h2 | h2
      · exact absurd (h2 ▸ hq) hxq
      · exact ih h2

/-- C8: when a claimed job's pipeline raises at any stage, the worker
records exactly that job as `failed` with the raised message as
`error_text` and a finish stamp, the transcript store is untouched (the
indexing stage never ran), every other job row is preserved verbatim,
and the claim loop can immediately claim a further queued job. -/
theorem claim8_worker_failure_isolation (envOf : Nat → PipelineEnv)
    (db : DBState) (now : Nat) (jc : JobClaim) (e : String)
    (hclaim : (reserveNextFn db now).1 = some jc)
    (hfail : (processJob (envOf jc.id) jc.id jc.url (reserveNextFn db now).2
      now).2 = some e) :
    (workerStep envOf db now =
      updateJobStatus (processJob (envOf jc.id) jc.id jc.url
        (reserveNextFn db now).2 now).1 jc.id Status.failed (some e)
        none none none now)
  ∧ (∀ r ∈ (workerStep envOf db now).jobs, r.id = jc.id →
      r.status = Status.failed ∧ r.errorText = some e ∧ r.finishedAt = some now)
  ∧ (workerStep envOf db now).segments = db.segments
  ∧ (∀ r ∈ db.jobs, ¬ r.id = jc.id → r ∈ (workerStep envOf db now).jobs)
  ∧ (∀ r ∈ db.jobs, ¬ r.id = jc.id → r.status = Status.queued →
      ∃ jc2, (reserveNextFn (workerStep envOf db now) now).1 = some jc2) := by
  rcases hrn : reserveNextFn db now with ⟨o, db1⟩
  rw [hrn] at hclaim hfail
  have hclaim2 : o = some jc := hclaim
  subst hclaim2
  have hfail2 : (processJob (envOf jc.id) jc.id jc.url db1 now).2 = some e :=
    hfail
  rcases hpj : processJob (envOf jc.id) jc.id jc.url db1 now with ⟨dbp, op⟩
  rw [hpj] at hfail2
  have hfail3 : op = some e := hfail2
  subst hfail3
  have hws : workerStep envOf db now =
      updateJobStatus dbp jc.id Status.failed (some e) none none none now := by
    unfold workerStep
    rw [hrn]
    simp only [workerClaimed]
    rw [hpj]
    simp only [workerHandle]
  have hdb1 : db1 = (reserveNextFn db now).2 := by rw [hrn]
  have hstep1 : (processJob (envOf jc.id) jc.id jc.url
      (reserveNextFn db now).2 now).1 = dbp := by
    rw [← hdb1, hpj]
  refine ⟨by rw [hws], ?_, ?_, ?_, ?_⟩
  · intro r hr hid
    rw [hws] at hr
    exact updateJobStatus_failed_fields hr hid
  · rw [hws]
    rw [updateJobStatus_segments]
    have h2 : dbp.segments = db1.segments :=
      processJob_fail_segments (by rw [hpj])
    rw [h2]
    have h3 : db1.segments = db.segments := by
      unfold reserveNextFn at hrn
      cases hsel : reserveSelect db.jobs with
      | none =>
        rw [hsel] at hrn
        injection hrn with h4 h5
        rw [← h5]
      | some r0 =>
        rw [hsel] at hrn
        injection hrn with h4 h5
        rw [← h5]
        rfl
    rw [h3]
  · intro r hr hne
    have hr1 : r ∈ db1.jobs := by
      unfold reserveNextFn at hrn
      cases hsel : reserveSelect db.jobs with
      | none =>
        rw [hsel] at hrn
        injection hrn with h4 h5
        rw [← h5]
        exact hr
      | some r0 =>
        rw [hsel] at hrn
        injection hrn with h4 h5
        have hid0 : r0.id = jc.id := by
          injection h4 with h6
          rw [← h6]
        rw [← h5]
        exact markClaimed_other hr (by rw [hid0]; exact hne)
    have hr2 : r ∈ dbp.jobs := by
      have := @processJob_other_rows (envOf jc.id) _ jc.url _ now _ hr1 hne
      rw [hpj] at this
      exact this
    rw [hws]
    exact updateJobStatus_other hr2 hne
  · intro r hr hne hq
    have hr3 : r ∈ (workerStep envOf db now).jobs := by
      have hr1 : r ∈ db1.jobs := by
        unfold reserveNextFn at hrn
        cases hsel : reserveSelect db.jobs with
        | none =>
          rw [hsel] at hrn
          injection hrn with h4 h5
          rw [← h5]
          exact hr
        | some r0 =>
          rw [hsel] at hrn
          injection hrn with h4 h5
          have hid0 : r0.id = jc.id := by
            injection h4 with h6
            rw [← h6]
          rw [← h5]
          exact markClaimed_other hr (by rw [hid0]; exact hne)
      have hr2 : r ∈ dbp.jobs := by
        have := @processJob_other_rows (envOf jc.id) _ jc.url _ now _ hr1 hne
        rw [hpj] at this
        exact this
      rw [hws]
      exact updateJobStatus_other hr2 hne
    have hq3 : r.status = Status.queued := hq
    obtain ⟨r2, hr2⟩ := reserveSelect_some_of_queued hr3 hq3
    refine ⟨⟨r2.id, r2.url, Status.downloading, r2.priority⟩, ?_⟩
    unfold reserveNextFn
    rw [hr2]

/-- First queued job of the worker-failure scenario. -/
def rowA : JobRow :=
  { id := 1, url := "u1", status := Status.queued, priority := 5, createdAt := 1 }

/-- Second queued job of the worker-failure scenario. -/
def rowB : JobRow :=
  { id := 2, url := "u2", status := Status.queued, priority := 1, createdAt := 2 }

/-- Store with two queued jobs. -/
def dbW8 : DBState := { jobs := [rowA, rowB], nextJobId := 3 }

/-- Pipeline environment whose download stage raises. -/
def envDl : PipelineEnv :=
  { fetchMeta := StageResult.success { idField := some "x" },
    download := StageResult.failure "boom" }

/-- Every job of the scenario runs against the failing environment. -/
def envOfW8 : Nat → PipelineEnv := fun _ => envDl

/-- Claim produced for the first job. -/
def jcW8 : JobClaim := ⟨1, "u1", Status.downloading, 5⟩

theorem claim8_witness :
    (reserveNextFn dbW8 9).1 = some jcW8
  ∧ (processJob (envOfW8 jcW8.id) jcW8.id jcW8.url (reserveNextFn dbW8 9).2
      9).2 = some "boom"
  ∧ (workerStep envOfW8 dbW8 9).segments = dbW8.segments
  ∧ rowB ∈ (workerStep envOfW8 dbW8 9).jobs
  ∧ (reserveNextFn (workerStep envOfW8 dbW8 9) 9).1 =
      some ⟨2, "u2", Status.downloading, 1⟩ := by
  have h := claim8_worker_failure_isolation envOfW8 dbW8 9 jcW8 "boom" rfl rfl
  exact ⟨rfl, rfl, h.2.2.1, h.2.2.2.1 rowB (by decide) (by decide), rfl⟩

/-! Claims C1 and C4: exclusivity and ordering of concurrent claims.
`BEGIN IMMEDIATE` serializes the claim transactions, so a concurrent
execution is a sequence of atomic `ReserveStep`s. -/

/-- Row ids of the job table. -/
def jobIds (db : DBState) : List Nat := db.jobs.map (fun r => r.id)

/-- Queued rows of the job table. -/
def queuedRows (db : DBState) : List JobRow :=
  db.jobs.filter (fun r => r.status = Status.queued)

/-- Ids of the queued rows. -/
def queuedIds (db : DBState) : List Nat := (queuedRows db).map (fun r => r.id)

/-- Number of queued rows. -/
def queuedCount (db : DBState) : Nat := (queuedRows db).length

/-- Ids handed out by a sequence of claim results. -/
def claimedIds (outs : List (Option JobClaim)) : List Nat :=
  (outs.filterMap id).map (fun j => j.id)

/-- Serialized execution of `claim_next` calls: each step is one
`ReserveStep` transaction at some time. -/
inductive ClaimTrace : DBState → List (Option JobClaim) → DBState → Prop where
  | nil (db : DBState) : ClaimTrace db [] db
  | cons {now : Nat} {db db1 db2 : DBState} {out : Option JobClaim}
      {outs : List (Option JobClaim)} :
      ReserveStep now db out db1 → ClaimTrace db1 outs db2 →
      ClaimTrace db (out :: outs) db2

theorem claimedIds_cons_some (jc : JobClaim) (outs : List (Option JobClaim)) :
    claimedIds (some jc :: outs) = jc.id :: claimedIds outs := rfl

theorem claimedIds_cons_none (outs : List (Option JobClaim)) :
    claimedIds (none :: outs) = claimedIds outs := rfl

theorem claimFlip_id (i now : Nat) (r : JobRow) : (claimFlip i now r).id = r.id := by
  unfold claimFlip
  split_ifs <;> rfl

theorem jobIds_markClaimed (db : DBState) (i now : Nat) :
    jobIds (markClaimed db i now) = jobIds db := by
  show (db.jobs.map (claimFlip i now)).map (fun r => r.id) =
    db.jobs.map (fun r => r.id)
  induction db.jobs with
  | nil => rfl
  | cons x xs ih => simp [claimFlip_id, ih]

theorem mem_queuedRows_iff {db : DBState} {r : JobRow} :
    r ∈ queuedRows db ↔ r ∈ db.jobs ∧ r.status = Status.queued := by
  unfold queuedRows
  simp [List.mem_filter]

theorem filter_queued_claimFlip (i now : Nat) : ∀ (l : List JobRow),
    (l.map (claimFlip i now)).filter (fun r => r.status = Status.queued)
      = (l.filter (fun r => r.status = Status.queued)).filter
          (fun r => ¬ r.id = i) := by
  intro l
  induction l with
  | nil => rfl
  | cons x xs ih =>
    simp only [List.map_cons, List.filter_cons]
    by_cases hq : x.status = Status.queued
    · by_cases hid : x.id = i
      · have hflip : claimFlip i now x =
            { x with status := Status.downloading, startedAt := some now,
                     errorText := none } := by
          unfold claimFlip
          rw [if_pos ⟨hid, hq⟩]
        rw [hflip]
        simp [hq, hid, ih]
      · have hflip : claimFlip i now x = x := by
          unfold claimFlip
          rw [if_neg (by simp [hid])]
        rw [hflip]
        simp [hq, hid, ih]
    · have hflip : claimFlip i now x = x := by
        unfold claimFlip
        rw [if_neg (by simp [hq])]
      rw [hflip]
      simp [hq, ih]

theorem queuedRows_markClaimed (db : DBState) (i now : Nat) :
    queuedRows (markClaimed db i now)
      = (queuedRows db).filter (fun r => ¬ r.id = i) :=
  filter_queued_claimFlip i now db.jobs

theorem not_mem_queuedIds_markClaimed (db : DBState) (i now : Nat) :
    i ∉ queuedIds (markClaimed db i now) := by
  unfold queuedIds
  rw [queuedRows_markClaimed]
  intro h
  obtain ⟨r, hr, hid⟩ := List.mem_map.mp h
  have h2 := (List.mem_filter.mp hr).2
  simp at h2
  exact h2 hid

theorem queuedIds_markClaimed_sub {db : DBState} {i now j : Nat}
    (h : j ∈ queuedIds (markClaimed db i now)) : j ∈ queuedIds db ∧ j ≠ i := by
  unfold queuedIds at h ⊢
  rw [queuedRows_markClaimed] at h
  obtain ⟨r, hr, hid⟩ := List.mem_map.mp h
  have h2 := List.mem_filter.mp hr
  refine ⟨List.mem_map.mpr ⟨r, h2.1, hid⟩, ?_⟩
  intro hji
  have h3 := h2.2
  simp at h3
  exact h3 (by rw [hid, hji])

theorem nodup_id_inj : ∀ {l : List JobRow},
    (l.map (fun r => r.id)).Nodup → ∀ {a b : JobRow}, a ∈ l → b ∈ l →
      a.id = b.id → a = b := by
  intro l
  induction l with
  | nil => intro _ a b ha; cases ha
  | cons x xs ih =>
    intro hnd a b ha hb hid
    simp only [List.map_cons, List.nodup_cons] at hnd
    rcases List.mem_cons.mp ha with ha2 | ha2 <;>
      rcases List.mem_cons.mp hb with hb2 | hb2
    · rw [ha2, hb2]
    · exfalso
      apply hnd.1
      rw [ha2] at hid
      rw [hid]
      exact List.mem_map_of_mem (fun r => r.id) hb2
    · exfalso
      apply hnd.1
      rw [hb2] at hid
      rw [← hid]
      exact List.mem_map_of_mem (fun r => r.id) ha2
    · exact ih hnd.2 ha2 hb2 hid

theorem length_filter_ne_id : ∀ {l : List JobRow},
    (l.map (fun r => r.id)).Nodup → ∀ {r : JobRow} {i : Nat}, r ∈ l → r.id = i →
      (l.filter (fun x => ¬ x.id = i)).length = l.length - 1 := by
  intro l
  induction l with
  | nil => intro _ r i hr; cases hr
  | cons x xs ih =>
    intro hnd r i hr hid
    simp only [List.map_cons, List.nodup_cons] at hnd
    rcases List.mem_cons.mp hr with h2 | h2
    · rw [List.filter_cons, if_neg (by simp [h2 ▸ hid])]
      rw [filter_all_true _ _ (by
        intro a ha
        simp only [decide_eq_true_eq]
        intro hai
        apply hnd.1
        have : a.id ∈ xs.map (fun r => r.id) :=
          List.mem_map_of_mem (fun r => r.id) ha
        rw [hai, ← hid, h2] at this
        exact this)]
      simp
    · by_cases hx : x.id = i
      · exfalso
        apply hnd.1
        have : r.id ∈ xs.map (fun r => r.id) :=
          List.mem_map_of_mem (fun r => r.id) h2
        rw [hid, ← hx] at this
        exact this
      · rw [List.filter_cons, if_pos (by simp [hx])]
        rw [List.length_cons, ih hnd.2 h2 hid]
        have : 1 ≤ xs.length := List.length_pos.mpr (List.ne_nil_of_mem h2)
        simp only [List.length_cons]
        omega

theorem queuedCount_markClaimed {db : DBState} {now : Nat}
    (hnd : (jobIds db).Nodup) {r : JobRow} (hr : r ∈ db.jobs)
    (hq : r.status = Status.queued) :
    queuedCount (markClaimed db r.id now) = queuedCount db - 1 := by
  unfold queuedCount
  rw [queuedRows_markClaimed]
  have hndq : ((queuedRows db).map (fun r => r.id)).Nodup := by
    have hsub : ((queuedRows db).map (fun r => r.id)).Sublist
        (db.jobs.map (fun r => r.id)) :=
      (List.filter_sublist db.jobs).map (fun r => r.id)
    exact hnd.sublist hsub
  exact length_filter_ne_id hndq (mem_queuedRows_iff.mpr ⟨hr, hq⟩) rfl

theorem claimed_mem_of_getElem {outs : List (Option JobClaim)} {i : Nat}
    {jc : JobClaim} (h : outs[i]? = some (some jc)) : jc.id ∈ claimedIds outs := by
  have h2 : some jc ∈ outs := by
    have := List.getElem?_eq_some_iff.mp h
    obtain ⟨hlt, hgl⟩ := this
    exact hgl ▸ List.getElem_mem hlt
  unfold claimedIds
  exact List.mem_map_of_mem _ (List.mem_filterMap.mpr ⟨some jc, h2, rfl⟩)

theorem trace_claimed_sub_queued {db : DBState} {outs : List (Option JobClaim)}
    {db2 : DBState} (ht : ClaimTrace db outs db2) :
    ∀ j ∈ claimedIds outs, j ∈ queuedIds db := by
  induction ht with
  | nil db => intro j hj; simp [claimedIds] at hj
  | @cons now db db1 db2 out outs hstep htail ih =>
    intro j hj
    cases hstep with
    | empty hno =>
      rw [claimedIds_cons_none] at hj
      exact ih j hj
    | claim r hmem hq hmin =>
      rw [claimedIds_cons_some] at hj
      rcases List.mem_cons.mp hj with h2 | h2
      · rw [h2]
        exact List.mem_map_of_mem _ (mem_queuedRows_iff.mpr ⟨hmem, hq⟩)
      · exact (queuedIds_markClaimed_sub (ih j h2)).1

theorem trace_claimed_nodup {db : DBState} {outs : List (Option JobClaim)}
    {db2 : DBState} (ht : ClaimTrace db outs db2) : (claimedIds outs).Nodup := by
  induction ht with
  | nil db => simp [claimedIds]
  | @cons now db db1 db2 out outs hstep htail ih =>
    cases hstep with
    | empty hno =>
      rw [claimedIds_cons_none]
      exact ih
    | claim r hmem hq hmin =>
      rw [claimedIds_cons_some]
      refine List.nodup_cons.mpr ⟨?_, ih⟩
      intro hmem2
      exact not_mem_queuedIds_markClaimed db r.id now
        (trace_claimed_sub_queued htail _ hmem2)

theorem trace_all_claimed {db : DBState} {outs : List (Option JobClaim)}
    {db2 : DBState} (ht : ClaimTrace db outs db2) :
    (jobIds db).Nodup → queuedCount db ≤ outs.length →
    ∀ r ∈ db.jobs, r.status = Status.queued → r.id ∈ claimedIds outs := by
  induction ht with
  | nil db =>
    intro hnd hlen r hr hq
    exfalso
    have h1 : 0 < queuedCount db :=
      List.length_pos.mpr (List.ne_nil_of_mem (mem_queuedRows_iff.mpr ⟨hr, hq⟩))
    simp only [List.length_nil] at hlen
    omega
  | @cons now db db1 db2 out outs hstep htail ih =>
    intro hnd hlen r hr hq
    cases hstep with
    | empty hno => exact absurd hq (hno r hr)
    | claim r0 hmem hq0 hmin =>
      by_cases hcase : r.id = r0.id
      · rw [claimedIds_cons_some]
        exact List.mem_cons.mpr (Or.inl hcase)
      · rw [claimedIds_cons_some]
        refine List.mem_cons.mpr (Or.inr ?_)
        have hnd1 : (jobIds (markClaimed db r0.id now)).Nodup := by
          rw [jobIds_markClaimed]
          exact hnd
        refine ih hnd1 ?_ r (markClaimed_other hr hcase) hq
        rw [queuedCount_markClaimed hnd hmem hq0]
        have h2 : queuedCount db ≤ outs.length + 1 := by
          simpa using hlen
        omega

/-- C1: over any serialized execution of `claim_next` calls against a
store with distinct job ids, no job id is ever handed to two callers,
every handed-out job was queued, and as soon as the execution has at
least as many calls as there were queued jobs, every queued job has been
handed to exactly one caller. -/
theorem claim1_exclusive_claims (db : DBState) (outs : List (Option JobClaim))
    (db2 : DBState) (hnd : (jobIds db).Nodup) (ht : ClaimTrace db outs db2) :
    (claimedIds outs).Nodup
  ∧ (∀ j ∈ claimedIds outs, j ∈ queuedIds db)
  ∧ (queuedCount db ≤ outs.length →
      ∀ r ∈ db.jobs, r.status = Status.queued → r.id ∈ claimedIds outs) :=
  ⟨trace_claimed_nodup ht, trace_claimed_sub_queued ht,
    fun hlen => trace_all_claimed ht hnd hlen⟩

theorem reserveStep_characterization {now : Nat} {db : DBState}
    {out : Option JobClaim} {db1 : DBState}
    (hnd : (jobIds db).Nodup) (hstep : ReserveStep now db out db1) :
    (out = none → db1 = db ∧ ∀ r ∈ db.jobs, r.status ≠ Status.queued)
  ∧ (∀ jc, out = some jc →
      ∃ r, r ∈ db.jobs ∧ r.status = Status.queued ∧
        jc = ⟨r.id, r.url, Status.downloading, r.priority⟩ ∧
        (∀ q ∈ db.jobs, q.status = Status.queued →
          q.priority ≤ r.priority ∧
            (q.priority = r.priority → r.createdAt ≤ q.createdAt)) ∧
        db1 = markClaimed db r.id now ∧
        (∀ r1 ∈ db1.jobs, r1.id = jc.id →
          r1.status = Status.downloading ∧ r1.startedAt = some now ∧
            r1.errorText = none)) := by
  cases hstep with
  | empty hno =>
    refine ⟨fun _ => ⟨rfl, hno⟩, ?_⟩
    intro jc hc
    cases hc
  | claim r hmem hq hmin =>
    refine ⟨fun hc => Option.noConfusion hc, ?_⟩
    intro jc hc
    injection hc with hc2
    refine ⟨r, hmem, hq, hc2.symm, ?_, rfl, ?_⟩
    · intro q hqmem hqq
      have h2 := hmin q hqmem hqq
      unfold keyBefore at h2
      push_neg at h2
      exact h2
    · intro r1 hr1 hid
      rw [← hc2] at hid
      obtain ⟨r0, hr0, hf⟩ := List.mem_map.mp hr1
      have hid0 : r0.id = r.id :=
        ((claimFlip_id r.id now r0).symm.trans
          (congrArg JobRow.id hf)).trans hid
      have hr0r : r0 = r := nodup_id_inj hnd hr0 hmem hid0
      rw [hr0r] at hf
      have hflip : claimFlip r.id now r =
          { r with status := Status.downloading, startedAt := some now,
                   errorText := none } := by
        unfold claimFlip
        rw [if_pos ⟨rfl, hq⟩]
      rw [hflip] at hf
      rw [← hf]
      exact ⟨rfl, rfl, rfl⟩

theorem trace_claim_order {db : DBState} {outs : List (Option JobClaim)}
    {db2 : DBState} (ht : ClaimTrace db outs db2) :
    (jobIds db).Nodup →
    ∀ (i k : Nat) (ja jb : JobClaim) (a b : JobRow), i < k →
      outs[i]? = some (some ja) → outs[k]? = some (some jb) →
      a ∈ db.jobs → a.id = ja.id → a.status = Status.queued →
      b ∈ db.jobs → b.id = jb.id → b.status = Status.queued →
      b.priority ≤ a.priority ∧
        (b.priority = a.priority → a.createdAt ≤ b.createdAt) := by
  induction ht with
  | nil db =>
    intro _ i k ja jb a b _ hi
    simp at hi
  | @cons now db db1 db2 out outs hstep htail ih =>
    intro hnd i k ja jb a b hik hi hk ha haid haq hb hbid hbq
    cases i with
    | zero =>
      rw [List.getElem?_cons_zero] at hi
      injection hi with hi2
      cases hstep with
      | empty hno => cases hi2
      | claim r0 hmem hq0 hmin =>
        injection hi2 with hji
        have haid2 : a.id = r0.id := by
          rw [haid, ← hji]
        have har : a = r0 := nodup_id_inj hnd ha hmem haid2
        have h2 := hmin b hb hbq
        unfold keyBefore at h2
        push_neg at h2
        rw [har]
        exact h2
    | succ m =>
      cases k with
      | zero => omega
      | succ l =>
        rw [List.getElem?_cons_succ] at hi hk
        have hml : m < l := by omega
        cases hstep with
        | empty hno =>
          exact ih hnd m l ja jb a b hml hi hk ha haid haq hb hbid hbq
        | claim r0 hmem hq0 hmin =>
          have hqa := trace_claimed_sub_queued htail _ (claimed_mem_of_getElem hi)
          have hqb := trace_claimed_sub_queued htail _ (claimed_mem_of_getElem hk)
          have hane : ¬ a.id = r0.id := by
            intro h
            rw [← haid, h] at hqa
            exact not_mem_queuedIds_markClaimed db r0.id now hqa
          have hbne : ¬ b.id = r0.id := by
            intro h
            rw [← hbid, h] at hqb
            exact not_mem_queuedIds_markClaimed db r0.id now hqb
          exact ih (by rw [jobIds_markClaimed]; exact hnd) m l ja jb a b hml
            hi hk (markClaimed_other ha hane) haid haq
            (markClaimed_other hb hbne) hbid hbq

/-- C4 (amended): a claim transaction returns none exactly when no
queued row exists; otherwise it returns a queued row of maximal
priority and, within that priority, minimal `created_at`, atomically
flipping it to `downloading` with `started_at` set and `error_text`
cleared; across any serialized execution, claim order is
priority-descending and, among equal priorities, ascending in
`created_at`.  Rows tying on both priority and `created_at` — as the
urls of a single multi-url `enqueue` call always do — carry no order
guarantee, because the claim query orders only by
(priority DESC, created_at ASC). -/
theorem claim4_claim_selection :
    (∀ (now : Nat) (db : DBState) (out : Option JobClaim) (db1 : DBState),
      (jobIds db).Nodup → ReserveStep now db out db1 →
      (out = none → db1 = db ∧ ∀ r ∈ db.jobs, r.status ≠ Status.queued) ∧
      (∀ jc, out = some jc →
        ∃ r, r ∈ db.jobs ∧ r.status = Status.queued ∧
          jc = ⟨r.id, r.url, Status.downloading, r.priority⟩ ∧
          (∀ q ∈ db.jobs, q.status = Status.queued →
            q.priority ≤ r.priority ∧
              (q.priority = r.priority → r.createdAt ≤ q.createdAt)) ∧
          db1 = markClaimed db r.id now ∧
          (∀ r1 ∈ db1.jobs, r1.id = jc.id →
            r1.status = Status.downloading ∧ r1.startedAt = some now ∧
              r1.errorText = none)))
  ∧ (∀ (db : DBState) (outs : List (Option JobClaim)) (db2 : DBState),
      ClaimTrace db outs db2 → (jobIds db).Nodup →
      ∀ (i k : Nat) (ja jb : JobClaim) (a b : JobRow), i < k →
        outs[i]? = some (some ja) → outs[k]? = some (some jb) →
        a ∈ db.jobs → a.id = ja.id → a.status = Status.queued →
        b ∈ db.jobs → b.id = jb.id → b.status = Status.queued →
        b.priority ≤ a.priority ∧
          (b.priority = a.priority → a.createdAt ≤ b.createdAt)) :=
  ⟨fun _ _ _ _ hnd hstep => reserveStep_characterization hnd hstep,
   fun _ _ _ ht hnd => trace_claim_order ht hnd⟩

/-- Claim handed out for the second queued job of the two-job store. -/
def jcB2 : JobClaim := ⟨2, "u2", Status.downloading, 1⟩

theorem claim1_witness :
    (claimedIds [some jcW8, some jcB2]).Nodup
  ∧ (∀ j ∈ claimedIds [some jcW8, some jcB2], j ∈ queuedIds dbW8)
  ∧ (queuedCount dbW8 ≤ ([some jcW8, some jcB2] : List (Option JobClaim)).length →
      ∀ r ∈ dbW8.jobs, r.status = Status.queued →
        r.id ∈ claimedIds [some jcW8, some jcB2]) := by
  have step1 : ReserveStep 3 dbW8 (some jcW8) (markClaimed dbW8 1 3) :=
    ReserveStep.claim dbW8 rowA (by decide) (by decide) (by decide)
  have step2 : ReserveStep 4 (markClaimed dbW8 1 3) (some jcB2)
      (markClaimed (markClaimed dbW8 1 3) 2 4) :=
    ReserveStep.claim (markClaimed dbW8 1 3) rowB (by decide) (by decide)
      (by decide)
  have ht : ClaimTrace dbW8 [some jcW8, some jcB2]
      (markClaimed (markClaimed dbW8 1 3) 2 4) :=
    ClaimTrace.cons step1 (ClaimTrace.cons step2 (ClaimTrace.nil _))
  exact claim1_exclusive_claims dbW8 [some jcW8, some jcB2]
    (markClaimed (markClaimed dbW8 1 3) 2 4) (by decide) ht

/-- Store produced by one `enqueue(["u1", "u2"], priority=0)` call at
time 10 on an empty store: both rows share `created_at = 10`. -/
def dbBatch : DBState :=
  (enqueue { jobs := [], videos := [], segments := [], nextJobId := 1 }
    ["u1", "u2"] 0 10).1

/-- First row of the batch. -/
def rowU1 : JobRow :=
  { id := 1, url := "u1", status := Status.queued, priority := 0,
    createdAt := 10 }

/-- Second row of the batch. -/
def rowU2 : JobRow :=
  { id := 2, url := "u2", status := Status.queued, priority := 0,
    createdAt := 10 }

/-- C4 counterexample: the urls of one multi-url `enqueue` call all get
the single timestamp taken before the insert loop, and the claim query
orders only by (priority DESC, created_at ASC) with no rowid tiebreak;
so after `enqueue(["u1", "u2"])` a claim transaction may legally hand out
the second-inserted job (id 2) while the first-inserted job (id 1) is
still queued with the same priority and `created_at`, contradicting the
claimed batch-insertion order. -/
theorem claim4_counterexample :
    ReserveStep 11 dbBatch (some ⟨2, "u2", Status.downloading, 0⟩)
      (markClaimed dbBatch 2 11)
  ∧ (∃ r ∈ dbBatch.jobs, r.id = 1 ∧ r.status = Status.queued ∧
      r.priority = 0 ∧ r.createdAt = 10 ∧ r.priority = rowU2.priority ∧
      r.createdAt = rowU2.createdAt) := by
  constructor
  · exact ReserveStep.claim dbBatch rowU2 (by decide) (by decide) (by decide)
  · exact ⟨rowU1, by decide, rfl, rfl, rfl, rfl, rfl, rfl⟩

end Alogger
